import Mathlib

/-!
Verification of the compiler front-end pipeline (lexer, recursive-descent
parser, semantic analyzer, three-address-code generator) of the
Intermediate-Compiler repository.  The JavaScript source in `main.js` is
embedded shallowly: JS strings become `String`, JS arrays become `List`,
nullable values become `Option`, mutable class state becomes explicit state
records, and a JS exception (a `throw` or a TypeError from dereferencing
`null`) becomes the `Except.error` branch.
-/

namespace IC

/-! ## Lexer (`Lexer.tokenize` in `main.js`)

The lexer works on the source text character by character; we model the
regular expressions of `tokenSpecs`, which are all anchored (`^...`), as
explicit prefix-matching functions on `List Char`. -/

/-- The character class of the JS regex `\s` (whitespace). -/
def isJsWhitespace (c : Char) : Bool :=
  c == ' ' || c == '\t' || c == '\n' || c == '\r' || c == '\x0b' || c == '\x0c' ||
  c.toNat == 0xa0 || c.toNat == 0x1680 || (0x2000 ≤ c.toNat && c.toNat ≤ 0x200a) ||
  c.toNat == 0x2028 || c.toNat == 0x2029 || c.toNat == 0x202f || c.toNat == 0x205f ||
  c.toNat == 0x3000 || c.toNat == 0xfeff

/-- JS line terminators: the characters the regex `.` does NOT match. -/
def isLineTerm (c : Char) : Bool :=
  c == '\n' || c == '\r' || c.toNat == 0x2028 || c.toNat == 0x2029

/-- The character class of the JS regex `\d`. -/
def isDigitCh (c : Char) : Bool := '0' ≤ c && c ≤ '9'

/-- The character class of the JS regex `\w` (word characters, used by `\b`). -/
def isWordCh (c : Char) : Bool :=
  isDigitCh c || ('a' ≤ c && c ≤ 'z') || ('A' ≤ c && c ≤ 'Z') || c == '_'

/-- First character of the IDENTIFIER regex `[a-zA-Z_]`. -/
def isIdentStart (c : Char) : Bool :=
  ('a' ≤ c && c ≤ 'z') || ('A' ≤ c && c ≤ 'Z') || c == '_'

/-- Does the list start with the given pattern? -/
def startsWithL : List Char → List Char → Bool
  | [], _ => true
  | _ :: _, [] => false
  | p :: ps, c :: cs => p == c && startsWithL ps cs

/-- Anchored match of `^\d+\.\d+` (FLOAT_LIT): a greedy digit run, a dot,
another digit run.  (The regex engine's backtracking over `\d+` can never
produce a different match here, since a digit is not a dot.) -/
def matchFloat (cs : List Char) : Option (List Char) :=
  if (cs.takeWhile isDigitCh).isEmpty then none
  else
    match cs.drop (cs.takeWhile isDigitCh).length with
    | '.' :: rest =>
      if (rest.takeWhile isDigitCh).isEmpty then none
      else some (cs.takeWhile isDigitCh ++ '.' :: rest.takeWhile isDigitCh)
    | _ => none

/-- Anchored match of `^\d+` (INT_LIT). -/
def matchInt (cs : List Char) : Option (List Char) :=
  if (cs.takeWhile isDigitCh).isEmpty then none else some (cs.takeWhile isDigitCh)

/-- Anchored match of `^"[^"]*"` (STRING_LIT). -/
def matchStrLit (cs : List Char) : Option (List Char) :=
  match cs with
  | '"' :: rest =>
    match rest.drop (rest.takeWhile (fun c => c != '"')).length with
    | '"' :: _ => some ('"' :: rest.takeWhile (fun c => c != '"') ++ ['"'])
    | _ => none
  | _ => none

/-- The reserved words of `^\b(int|void|if|else|while|for|return|printf)\b`. -/
def keywordList : List (List Char) :=
  [String.toList "int", String.toList "void", String.toList "if",
   String.toList "else", String.toList "while", String.toList "for",
   String.toList "return", String.toList "printf"]

/-- One alternative of the keyword regex: the word followed by a boundary. -/
def kwMatches (kw cs : List Char) : Bool :=
  startsWithL kw cs &&
    (match cs.drop kw.length with
     | [] => true
     | c :: _ => !isWordCh c)

/-- Anchored match of the KEYWORD rule (word-boundary alternation). -/
def matchKeyword (cs : List Char) : Option (List Char) :=
  (keywordList.find? (fun kw => kwMatches kw cs))

/-- Anchored match of `^[a-zA-Z_][a-zA-Z0-9_]*` (IDENTIFIER). -/
def matchIdent (cs : List Char) : Option (List Char) :=
  match cs with
  | c :: rest => if isIdentStart c then some (c :: rest.takeWhile isWordCh) else none
  | [] => none

/-- The two-character alternatives of the OPERATOR rule, in regex order. -/
def twoCharOps : List (List Char) :=
  [['=', '='], ['!', '='], ['<', '='], ['>', '='], ['&', '&'], ['|', '|']]

/-- The single-character class `[+\-*/=<>!]` of the OPERATOR rule. -/
def singleOps : List Char := ['+', '-', '*', '/', '=', '<', '>', '!']

/-- Anchored match of the OPERATOR rule. -/
def matchOp (cs : List Char) : Option (List Char) :=
  match twoCharOps.find? (fun op => startsWithL op cs) with
  | some op => some op
  | none =>
    match cs with
    | c :: _ => if singleOps.contains c then some [c] else none
    | [] => none

/-- Anchored match of `^[\(\)\{\};,]` (SEPARATOR). -/
def matchSep (cs : List Char) : Option (List Char) :=
  match cs with
  | c :: _ => if ['(', ')', '{', '}', ';', ','].contains c then some [c] else none
  | [] => none

/-- Anchored match of `^.` (MISMATCH): any character except a line terminator. -/
def matchAnyCh (cs : List Char) : Option (List Char) :=
  match cs with
  | c :: _ => if isLineTerm c then none else some [c]
  | [] => none

/-- The ordered `tokenSpecs` list of the lexer. -/
def tokenSpecs : List (String × (List Char → Option (List Char))) :=
  [("FLOAT_LIT", matchFloat), ("INT_LIT", matchInt), ("STRING_LIT", matchStrLit),
   ("KEYWORD", matchKeyword), ("IDENTIFIER", matchIdent), ("OPERATOR", matchOp),
   ("SEPARATOR", matchSep), ("MISMATCH", matchAnyCh)]

/-- First-match loop over a spec list (the inner `for (const spec of tokenSpecs)`). -/
def findSpecIn : List (String × (List Char → Option (List Char))) → List Char →
    Option (String × List Char)
  | [], _ => none
  | (ty, m) :: rest, cs =>
    match m cs with
    | some v => some (ty, v)
    | none => findSpecIn rest cs

/-- First matching rule of `tokenSpecs` at the current position. -/
def findSpec (cs : List Char) : Option (String × List Char) :=
  findSpecIn tokenSpecs cs

/-- A lexical token: `{ type, value, line, col }`. -/
structure Token where
  type : String
  value : String
  line : Nat
  col : Nat
deriving DecidableEq, Repr

/-- Line/column update over a skipped whitespace run, mirroring
`if (newlines > 0) { line += newlines; col = ws.length - ws.lastIndexOf('\n') }
else { col += ws.length }`. -/
def stepPos (ws : List Char) (line col : Nat) : Nat × Nat :=
  if ws.count '\n' > 0 then
    (line + ws.count '\n', (ws.reverse.takeWhile (fun c => c != '\n')).length + 1)
  else
    (line, col + ws.length)

theorem findSpecIn_none : ∀ (specs : List (String × (List Char → Option (List Char))))
    (cs : List Char), findSpecIn specs cs = none → ∀ p ∈ specs, p.2 cs = none := by
  intro specs
  induction specs with
  | nil => intro cs h p hp; cases hp
  | cons q rest ih =>
    intro cs h p hp
    unfold findSpecIn at h
    split at h
    · exact absurd h (by simp)
    · next hm =>
      rcases List.mem_cons.mp hp with hp | hp
      · subst hp; exact hm
      · exact ih cs h p hp

theorem matchFloat_ne_nil {cs v : List Char} (h : matchFloat cs = some v) : v ≠ [] := by
  unfold matchFloat at h
  split at h
  · simp at h
  · split at h
    · split at h
      · simp at h
      · injection h with h; subst h; simp
    · simp at h

theorem matchInt_ne_nil {cs v : List Char} (h : matchInt cs = some v) : v ≠ [] := by
  unfold matchInt at h
  split at h
  · simp at h
  · next hd =>
    injection h with h
    subst h
    simpa [List.isEmpty_iff] using hd

theorem matchStrLit_ne_nil {cs v : List Char} (h : matchStrLit cs = some v) : v ≠ [] := by
  unfold matchStrLit at h
  split at h
  · split at h
    · injection h with h; subst h; simp
    · simp at h
  · simp at h

theorem matchKeyword_ne_nil {cs v : List Char} (h : matchKeyword cs = some v) : v ≠ [] := by
  intro hnil
  subst hnil
  exact absurd (List.mem_of_find?_eq_some h) (by decide)

theorem matchIdent_ne_nil {cs v : List Char} (h : matchIdent cs = some v) : v ≠ [] := by
  unfold matchIdent at h
  split at h
  · split at h
    · injection h with h; subst h; simp
    · simp at h
  · simp at h

theorem matchOp_ne_nil {cs v : List Char} (h : matchOp cs = some v) : v ≠ [] := by
  unfold matchOp at h
  split at h
  · next op hf =>
    injection h with h
    subst h
    intro hnil
    subst hnil
    exact absurd (List.mem_of_find?_eq_some hf) (by decide)
  · split at h
    · split at h
      · injection h with h; subst h; simp
      · simp at h
    · simp at h

theorem matchSep_ne_nil {cs v : List Char} (h : matchSep cs = some v) : v ≠ [] := by
  unfold matchSep at h
  split at h
  · split at h
    · injection h with h; subst h; simp
    · simp at h
  · simp at h

theorem matchAnyCh_ne_nil {cs v : List Char} (h : matchAnyCh cs = some v) : v ≠ [] := by
  unfold matchAnyCh at h
  split at h
  · split at h
    · simp at h
    · injection h with h; subst h; simp
  · simp at h

theorem findSpecIn_some : ∀ (specs : List (String × (List Char → Option (List Char))))
    (cs : List Char) (ty : String) (v : List Char),
    findSpecIn specs cs = some (ty, v) → ∃ p ∈ specs, p.2 cs = some v := by
  intro specs
  induction specs with
  | nil => intro cs ty v h; simp [findSpecIn] at h
  | cons q rest ih =>
    intro cs ty v h
    obtain ⟨qty, qm⟩ := q
    rw [findSpecIn] at h
    split at h
    · next w hm =>
      injection h with h
      injection h with h1 h2
      subst h2
      exact ⟨(qty, qm), List.mem_cons_self _ _, hm⟩
    · obtain ⟨p, hp, hm⟩ := ih cs ty v h
      exact ⟨p, List.mem_cons_of_mem _ hp, hm⟩

theorem findSpec_ne_nil {cs : List Char} {ty : String} {v : List Char}
    (h : findSpec cs = some (ty, v)) : v ≠ [] := by
  obtain ⟨p, hp, hm⟩ := findSpecIn_some tokenSpecs cs ty v h
  simp only [tokenSpecs, List.mem_cons, List.not_mem_nil, or_false] at hp
  rcases hp with rfl | rfl | rfl | rfl | rfl | rfl | rfl | rfl
  · exact matchFloat_ne_nil hm
  · exact matchInt_ne_nil hm
  · exact matchStrLit_ne_nil hm
  · exact matchKeyword_ne_nil hm
  · exact matchIdent_ne_nil hm
  · exact matchOp_ne_nil hm
  · exact matchSep_ne_nil hm
  · exact matchAnyCh_ne_nil hm

/-- The tokenizer main loop.  Each iteration skips a whitespace run, breaks
when the input is exhausted, and otherwise tries the ordered rules; a
position where no rule matches reproduces `throw new Error("Lexer error: ...")`
as the `Except.error` branch.  The `fuel` argument only makes the recursion
structural: each iteration consumes at least one character, so starting the
loop with `length + 1` fuel never exhausts it (proved in `tokenize_total`). -/
def tokenizeAux : Nat → List Char → Nat → Nat → Except String (List Token)
  | 0, _, _, _ => .error "out of fuel"
  | fuel + 1, cs0, line, col =>
    match cs0 with
    | [] => .ok []
    | c :: cs =>
      match (c :: cs).drop ((c :: cs).takeWhile isJsWhitespace).length,
            stepPos ((c :: cs).takeWhile isJsWhitespace) line col with
      | [], _ => .ok []
      | c1 :: cs1, (line1, col1) =>
        match findSpec (c1 :: cs1) with
        | some (ty, v) =>
          match tokenizeAux fuel ((c1 :: cs1).drop v.length) line1 (col1 + v.length) with
          | .ok rest => .ok (⟨ty, String.mk v, line1, col1⟩ :: rest)
          | .error e => .error e
        | none => .error ("Lexer error: " ++ String.mk ((c1 :: cs1).take 10))

/-- `Lexer.tokenize`: runs the main loop from line 1, column 1. -/
def tokenize (code : String) : Except String (List Token) :=
  tokenizeAux (code.toList.length + 1) code.toList 1 1

instance instDecEqExcept {ε α : Type} [DecidableEq ε] [DecidableEq α] :
    DecidableEq (Except ε α) := fun x y =>
  match x, y with
  | .ok a, .ok b =>
    if h : a = b then .isTrue (by rw [h]) else .isFalse (by intro hc; cases hc; exact h rfl)
  | .error a, .error b =>
    if h : a = b then .isTrue (by rw [h]) else .isFalse (by intro hc; cases hc; exact h rfl)
  | .ok _, .error _ => .isFalse (by intro hc; cases hc)
  | .error _, .ok _ => .isFalse (by intro hc; cases hc)

/-! ### Lexer lemmas: totality (C2), rule priority (C3), positions (C9) -/

theorem lineTerm_isWhitespace {c : Char} (h : isLineTerm c = true) :
    isJsWhitespace c = true := by
  simp only [isLineTerm, Bool.or_eq_true, beq_iff_eq] at h
  obtain ((h | h) | h) | h := h
  · subst h; decide
  · subst h; decide
  · simp [isJsWhitespace, h]
  · simp [isJsWhitespace, h]

theorem head_after_takeWhile {p : Char → Bool} : ∀ (cs : List Char) {c : Char}
    {rest : List Char}, cs.drop (cs.takeWhile p).length = c :: rest → p c = false := by
  intro cs
  induction cs with
  | nil => intro c rest h; simp at h
  | cons a t ih =>
    intro c rest h
    by_cases hp : p a
    · rw [List.takeWhile_cons_of_pos hp] at h
      simp only [List.length_cons, List.drop_succ_cons] at h
      exact ih h
    · rw [List.takeWhile_cons_of_neg hp] at h
      simp only [List.length_nil, List.drop_zero, List.cons.injEq] at h
      obtain ⟨h1, _⟩ := h
      subst h1
      simpa using hp

theorem findSpec_some_of_head {c : Char} (cs : List Char) (h : isJsWhitespace c = false) :
    (findSpec (c :: cs)).isSome := by
  cases hf : findSpec (c :: cs) with
  | some v => simp
  | none =>
    exfalso
    have hall := findSpecIn_none tokenSpecs (c :: cs) hf ("MISMATCH", matchAnyCh)
      (by simp [tokenSpecs])
    by_cases hl : isLineTerm c
    · exact absurd (lineTerm_isWhitespace hl) (by simp [h])
    · simp only [matchAnyCh, hl] at hall
      exact absurd hall (by simp)

theorem tokenizeAux_succ_cons (fuel : Nat) (a : Char) (t : List Char) (line col : Nat) :
    tokenizeAux (fuel + 1) (a :: t) line col =
      match (a :: t).drop ((a :: t).takeWhile isJsWhitespace).length,
            stepPos ((a :: t).takeWhile isJsWhitespace) line col with
      | [], _ => .ok []
      | c1 :: cs1, (line1, col1) =>
        match findSpec (c1 :: cs1) with
        | some (ty, v) =>
          match tokenizeAux fuel ((c1 :: cs1).drop v.length) line1 (col1 + v.length) with
          | .ok rest => .ok (⟨ty, String.mk v, line1, col1⟩ :: rest)
          | .error e => .error e
        | none => .error ("Lexer error: " ++ String.mk ((c1 :: cs1).take 10)) := rfl

theorem tokenizeAux_ok : ∀ (fuel : Nat) (cs : List Char) (line col : Nat),
    cs.length < fuel → ∃ toks, tokenizeAux fuel cs line col = .ok toks := by
  intro fuel
  induction fuel with
  | zero => intro cs l c h; omega
  | succ f ih =>
    intro cs line col h
    cases cs with
    | nil => exact ⟨[], rfl⟩
    | cons a t =>
      rcases hd : (a :: t).drop ((a :: t).takeWhile isJsWhitespace).length with _ | ⟨c1, cs1⟩
      · refine ⟨[], ?_⟩
        rw [tokenizeAux_succ_cons, hd]
      · have hnw : isJsWhitespace c1 = false := head_after_takeWhile (a :: t) hd
        have hfs := findSpec_some_of_head cs1 hnw
        rcases ho : findSpec (c1 :: cs1) with _ | ⟨ty, v⟩
        · rw [ho] at hfs; simp at hfs
        · rcases hp : stepPos ((a :: t).takeWhile isJsWhitespace) line col with ⟨line1, col1⟩
          have hv1 : 1 ≤ v.length := by
            have hne := findSpec_ne_nil ho
            cases v with
            | nil => exact absurd rfl hne
            | cons x xs => simp
          have hle : (c1 :: cs1).length ≤ t.length + 1 := by
            have : ((a :: t).drop ((a :: t).takeWhile isJsWhitespace).length).length ≤
                (a :: t).length := by
              simp only [List.length_drop]
              omega
            rw [hd] at this
            simpa using this
          have hlen : ((c1 :: cs1).drop v.length).length < f := by
            simp only [List.length_drop, List.length_cons] at *
            omega
          obtain ⟨rest, hrest⟩ := ih ((c1 :: cs1).drop v.length) line1 (col1 + v.length) hlen
          refine ⟨⟨ty, String.mk v, line1, col1⟩ :: rest, ?_⟩
          rw [tokenizeAux_succ_cons, hd, hp]
          simp only [ho, hrest]

/-- C2: `tokenize` is total — for every input string it returns a full token
sequence, and the unmatched-character fatal path (`throw "Lexer error"`) is
unreachable, because after whitespace skipping the head character is not a
line terminator, so the final catch-all rule `^.` (MISMATCH) always matches:
every non-whitespace character produces some token. -/
theorem tokenize_total :
    (∀ code : String, ∃ toks, tokenize code = Except.ok toks) ∧
    (∀ (c : Char) (cs : List Char), isJsWhitespace c = false →
      (findSpec (c :: cs)).isSome) :=
  ⟨fun code => tokenizeAux_ok _ code.toList 1 1 (Nat.lt_succ_self _),
   fun _ cs h => findSpec_some_of_head cs h⟩

theorem tokenize_total_witness :
    (∃ toks, tokenize "@ #" = Except.ok toks) ∧ (findSpec ['@']).isSome :=
  ⟨tokenize_total.1 "@ #", tokenize_total.2 '@' [] (by decide)⟩

/-- C3: when tokenization reaches the characters `3.14` at the current
position (not followed by a further digit, so that `3.14` is the whole
numeric literal there), the ordered rule list matches the FLOAT_LIT rule
first, producing exactly one token with text `3.14` and continuing after all
four characters — never an INT_LIT `3` followed by other tokens. -/
theorem float_priority_step (rest : List Char) (line col fuel : Nat)
    (h : ∀ c ∈ rest.head?, isDigitCh c = false) :
    findSpec ('3' :: '.' :: '1' :: '4' :: rest) = some ("FLOAT_LIT", ['3', '.', '1', '4']) ∧
    tokenizeAux (fuel + 1) ('3' :: '.' :: '1' :: '4' :: rest) line col =
      (match tokenizeAux fuel rest line (col + 4) with
       | .ok toks => .ok (⟨"FLOAT_LIT", "3.14", line, col⟩ :: toks)
       | .error e => .error e) := by
  have htw : List.takeWhile isDigitCh rest = [] := by
    cases rest with
    | nil => rfl
    | cons c t =>
      have hc : isDigitCh c = false := h c (by simp)
      exact List.takeWhile_cons_of_neg (by simp [hc])
  have h1 : List.takeWhile isDigitCh ('3' :: '.' :: '1' :: '4' :: rest) = ['3'] := by
    rw [List.takeWhile_cons_of_pos (by decide), List.takeWhile_cons_of_neg (by decide)]
  have h2 : List.takeWhile isDigitCh ('1' :: '4' :: rest) = ['1', '4'] := by
    rw [List.takeWhile_cons_of_pos (by decide), List.takeWhile_cons_of_pos (by decide), htw]
  have hfloat : matchFloat ('3' :: '.' :: '1' :: '4' :: rest) = some ['3', '.', '1', '4'] := by
    unfold matchFloat
    rw [h1]
    simp [h2]
  have hfs : findSpec ('3' :: '.' :: '1' :: '4' :: rest) =
      some ("FLOAT_LIT", ['3', '.', '1', '4']) := by
    unfold findSpec tokenSpecs
    rw [findSpecIn, hfloat]
  refine ⟨hfs, ?_⟩
  rw [tokenizeAux_succ_cons]
  have hws : List.takeWhile isJsWhitespace ('3' :: '.' :: '1' :: '4' :: rest) = [] :=
    List.takeWhile_cons_of_neg (by decide)
  rw [hws]
  simp only [List.length_nil, List.drop_zero]
  rw [show stepPos [] line col = (line, col) from by simp [stepPos]]
  simp only [hfs]
  rfl

theorem float_priority_step_witness :
    findSpec ['3', '.', '1', '4'] = some ("FLOAT_LIT", ['3', '.', '1', '4']) ∧
    tokenize "3.14" = Except.ok [⟨"FLOAT_LIT", "3.14", 1, 1⟩] :=
  ⟨(float_priority_step [] 1 1 0 (by simp)).1, by decide⟩

theorem stepPos_lb (ws : List Char) (line col : Nat) :
    line < (stepPos ws line col).1 ∨
    ((stepPos ws line col).1 = line ∧ col ≤ (stepPos ws line col).2) := by
  unfold stepPos
  split
  · next h => left; simpa using h
  · right; simp

theorem tokenizeAux_lb : ∀ (fuel : Nat) (cs : List Char) (line col : Nat)
    (toks : List Token), tokenizeAux fuel cs line col = .ok toks → ∀ tk ∈ toks,
    line < tk.line ∨ (line = tk.line ∧ col ≤ tk.col) := by
  intro fuel
  induction fuel with
  | zero => intro cs l c toks h; exact Except.noConfusion h
  | succ f ih =>
    intro cs line col toks h tk htk
    cases cs with
    | nil =>
      injection h with h
      subst h
      cases htk
    | cons a t =>
      rw [tokenizeAux_succ_cons] at h
      split at h
      · injection h with h
        subst h
        cases htk
      · next c1 cs1 line1 col1 heq1 heq2 =>
        split at h
        · next ty v hfs =>
          split at h
          · next rest hrec =>
            injection h with h
            subst h
            have hsp := stepPos_lb ((a :: t).takeWhile isJsWhitespace) line col
            rw [heq2] at hsp
            simp only at hsp
            rcases List.mem_cons.mp htk with rfl | htk2
            · simp only
              rcases hsp with hsp | ⟨hsp1, hsp2⟩
              · left; exact hsp
              · right; exact ⟨hsp1.symm, hsp2⟩
            · have := ih _ _ _ _ hrec tk htk2
              rcases hsp with hsp | ⟨hsp1, hsp2⟩ <;> rcases this with h3 | ⟨h3, h4⟩
              · left; omega
              · left; omega
              · left; omega
              · right; omega
          · exact absurd h (by simp)
        · exact absurd h (by simp)

theorem tokenizeAux_pairwise : ∀ (fuel : Nat) (cs : List Char) (line col : Nat)
    (toks : List Token), tokenizeAux fuel cs line col = .ok toks →
    List.Pairwise (fun a b : Token =>
      a.line < b.line ∨ (a.line = b.line ∧ a.col < b.col)) toks := by
  intro fuel
  induction fuel with
  | zero => intro cs l c toks h; exact Except.noConfusion h
  | succ f ih =>
    intro cs line col toks h
    cases cs with
    | nil =>
      injection h with h
      subst h
      exact List.Pairwise.nil
    | cons a t =>
      rw [tokenizeAux_succ_cons] at h
      split at h
      · injection h with h
        subst h
        exact List.Pairwise.nil
      · next c1 cs1 line1 col1 heq1 heq2 =>
        split at h
        · next ty v hfs =>
          split at h
          · next rest hrec =>
            injection h with h
            subst h
            refine List.Pairwise.cons ?_ (ih _ _ _ _ hrec)
            intro tk htk
            have hlb := tokenizeAux_lb _ _ _ _ _ hrec tk htk
            have hv1 : 1 ≤ v.length := by
              have hne := findSpec_ne_nil hfs
              cases v with
              | nil => exact absurd rfl hne
              | cons x xs => simp
            simp only
            rcases hlb with h3 | ⟨h3, h4⟩
            · left; exact h3
            · right; exact ⟨h3.symm ▸ rfl, by omega⟩
          · exact absurd h (by simp)
        · exact absurd h (by simp)

/-- C9 (amended): the token positions produced by `tokenize` are strictly
increasing in the lexicographic order on (line, column): the line numbers are
monotonically non-decreasing, but the column alone may decrease — it is
reset when the line advances past a newline.  (The original claim, that both
fields are monotonically non-decreasing across the sequence, fails for the
column field; see the counterexample.) -/
theorem positions_lex_increasing (code : String) (toks : List Token)
    (h : tokenize code = Except.ok toks) :
    List.Pairwise (fun a b : Token =>
      a.line < b.line ∨ (a.line = b.line ∧ a.col < b.col)) toks := by
  unfold tokenize at h
  exact tokenizeAux_pairwise _ _ _ _ _ h

theorem positions_lex_increasing_witness :
    List.Pairwise (fun a b : Token =>
      a.line < b.line ∨ (a.line = b.line ∧ a.col < b.col))
      [⟨"IDENTIFIER", "a", 1, 1⟩, ⟨"IDENTIFIER", "b", 1, 3⟩, ⟨"IDENTIFIER", "c", 2, 1⟩] :=
  positions_lex_increasing "a b\nc" _ (by decide)

/-- C9 (counterexample): on the source `"a b\nc"` the lexer produces tokens
at columns 1, 3, 1 — the column of the third token is smaller than the
column of the second, so the column field is not monotonically
non-decreasing across the sequence. -/
theorem column_not_monotone :
    tokenize "a b\nc" = Except.ok
      [⟨"IDENTIFIER", "a", 1, 1⟩, ⟨"IDENTIFIER", "b", 1, 3⟩, ⟨"IDENTIFIER", "c", 2, 1⟩] ∧
    ¬ List.Pairwise (fun a b : Token => a.col ≤ b.col)
      [⟨"IDENTIFIER", "a", 1, 1⟩, ⟨"IDENTIFIER", "b", 1, 3⟩, ⟨"IDENTIFIER", "c", 2, 1⟩] := by
  exact ⟨by decide, by decide⟩

/-! ## AST nodes (`astNodes` classes in `main.js`)

A single closed inductive; fields that JavaScript may set to `null`
(e.g. an expression produced by a failed `parseExpression`) are `Option`. -/

inductive Node where
  | program (children : List Node)
  | funcDef (returnType : String) (name : Node) (params : List Node) (body : Node)
  | param (paramType : String) (paramName : Node)
  | block (statements : List Node)
  | varDecl (varType : String) (varName : Node) (value : Option Node)
  | assign (left : Node) (right : Option Node)
  | binop (left : Option Node) (op : String) (right : Option Node)
  | num (token : Token)
  | ident (token : Token)
  | strLit (token : Token)
  | call (name : Node) (args : List (Option Node))
  | ifStmt (condition : Option Node) (ifBody : Node) (elseBody : Option Node)
  | forLoop (init : Option Node) (condition : Option Node) (increment : Option Node)
      (body : Node)
  | ret (value : Option Node)
deriving Repr

/-! ## Parser (`Parser` class in `main.js`)

The parser state is the token list, the cursor and the collected syntax
errors.  Every parse function takes a fuel argument that only makes the
mutual recursion structural; it is irrelevant on any run that terminates
within the fuel, and the top-level entry point supplies a generous amount.
A JavaScript TypeError (building `IdentifierNode` from the `null` returned
by a failed `expect`) is an `Except.error`. -/

structure PState where
  tokens : List Token
  pos : Nat
  errors : List String
deriving DecidableEq, Repr

/-- `Parser.currentToken()`. -/
def currentToken (st : PState) : Option Token := st.tokens[st.pos]?

/-- The one-token lookahead `this.tokens[this.pos + 1]`. -/
def nextToken (st : PState) : Option Token := st.tokens[st.pos + 1]?

/-- `this.currentToken()?.value`. -/
def curValue (st : PState) : Option String := (currentToken st).map (fun t => t.value)

/-- `Parser.advance()`. -/
def advance (st : PState) : PState := { st with pos := st.pos + 1 }

/-- `Parser.error(m, t)`: records a syntax error carrying the token line (or
EOF) and advances past the offending token when there is one. -/
def perror (m : String) (t : Option Token) (st : PState) : PState :=
  match (match t with | some tk => some tk | none => currentToken st) with
  | some tk =>
    advance { st with
      errors := st.errors ++ ["Syntax Error: " ++ m ++ " at line " ++ toString tk.line] }
  | none => { st with errors := st.errors ++ ["Syntax Error: " ++ m ++ " at EOF"] }

/-- `Parser.expect(type, value)`. -/
def expectT (ty : String) (v : Option String) (st : PState) : Option Token × PState :=
  match currentToken st with
  | some t =>
    if t.type == ty && (v == none || v == some t.value) then (some t, advance st)
    else (none, perror ("Expected " ++ v.getD ty) (some t) st)
  | none => (none, perror ("Expected " ++ v.getD ty) none st)

/-- The skip loop of `Parser.recover()`: advance while the current token is
neither `;` nor `}`. -/
def recoverLoop : Nat → PState → PState
  | 0, st => st
  | fuel + 1, st =>
    match currentToken st with
    | none => st
    | some t =>
      if t.value == ";" || t.value == "\x7d" then st else recoverLoop fuel (advance st)

/-- `Parser.recover()`: skip to `;` or `}`, consuming a `;` terminator. -/
def recover (st : PState) : PState :=
  if curValue (recoverLoop (st.tokens.length + 1) st) == some ";" then
    advance (recoverLoop (st.tokens.length + 1) st)
  else recoverLoop (st.tokens.length + 1) st

mutual

/-- The `while (this.currentToken())` loop of `Parser.parse`. -/
def parseProgramLoop : Nat → List Node → PState → Except String (List Node × PState)
  | 0, _, _ => .error "out of fuel"
  | fuel + 1, acc, st =>
    match currentToken st with
    | none => .ok (acc, st)
    | some _ =>
      match parseFuncDef fuel st with
      | .error e => .error e
      | .ok (func, st1) =>
        match func with
        | some fn => parseProgramLoop fuel (acc ++ [fn]) st1
        | none =>
          if st1.errors.isEmpty then parseProgramLoop fuel acc st1
          else .ok (acc, st1)

/-- `Parser.parseFunctionDefinition`. -/
def parseFuncDef : Nat → PState → Except String (Option Node × PState)
  | 0, _ => .error "out of fuel"
  | fuel + 1, st =>
    match expectT "KEYWORD" none st with
    | (ty, st1) =>
      match expectT "IDENTIFIER" none st1 with
      | (nm, st2) =>
        match ty, nm with
        | some tyTok, some nmTok => do
          let (_, st3) := expectT "SEPARATOR" (some "(") st2
          let (ps, st4) ←
            if curValue st3 != some ")" then parseParamsLoop fuel [] st3
            else pure ([], st3)
          let (_, st5) := expectT "SEPARATOR" (some ")") st4
          let (body, st6) ← parseBlock fuel st5
          pure (some (.funcDef tyTok.value (.ident nmTok) ps body), st6)
        | _, _ => pure (none, st2)

/-- The `do … while` parameter loop of `parseFunctionDefinition`. -/
def parseParamsLoop : Nat → List Node → PState → Except String (List Node × PState)
  | 0, _, _ => .error "out of fuel"
  | fuel + 1, acc, st =>
    match expectT "KEYWORD" none st with
    | (pt, st1) =>
      match expectT "IDENTIFIER" none st1 with
      | (pn, st2) =>
        match pt, pn with
        | some ptTok, some pnTok =>
          if curValue st2 != some "," then
            pure (acc ++ [Node.param ptTok.value (.ident pnTok)], st2)
          else parseParamsLoop fuel (acc ++ [Node.param ptTok.value (.ident pnTok)])
            (advance st2)
        | _, _ =>
          if curValue st2 != some "," then pure (acc, st2)
          else parseParamsLoop fuel acc (advance st2)

/-- `Parser.parseBlock`. -/
def parseBlock : Nat → PState → Except String (Node × PState)
  | 0, _ => .error "out of fuel"
  | fuel + 1, st => do
    let (_, st1) := expectT "SEPARATOR" (some "\x7b") st
    let (stmts, st2) ← parseBlockLoop fuel [] st1
    let (_, st3) := expectT "SEPARATOR" (some "\x7d") st2
    pure (.block stmts, st3)

/-- The statement loop of `parseBlock`: on a failed statement with errors
present it resynchronizes with `recover` and continues. -/
def parseBlockLoop : Nat → List Node → PState → Except String (List Node × PState)
  | 0, _, _ => .error "out of fuel"
  | fuel + 1, acc, st =>
    match currentToken st with
    | none => .ok (acc, st)
    | some t =>
      if t.value == "\x7d" then .ok (acc, st)
      else
        match parseStatement fuel st with
        | .error e => .error e
        | .ok (s, st1) =>
          match s with
          | some stmt => parseBlockLoop fuel (acc ++ [stmt]) st1
          | none =>
            if st1.errors.isEmpty then parseBlockLoop fuel acc st1
            else parseBlockLoop fuel acc (recover st1)

/-- `Parser.parseStatement`: dispatch on the current token with one-token
lookahead for calls and assignments. -/
def parseStatement : Nat → PState → Except String (Option Node × PState)
  | 0, _ => .error "out of fuel"
  | fuel + 1, st =>
    match currentToken st with
    | none => .ok (none, st)
    | some t =>
      if t.type == "KEYWORD" && t.value == "int" then parseVarDecl fuel st
      else if t.type == "KEYWORD" && t.value == "if" then parseIf fuel st
      else if t.type == "KEYWORD" && t.value == "for" then parseFor fuel st
      else if t.type == "KEYWORD" && t.value == "return" then parseRet fuel st
      else if t.type == "IDENTIFIER" || t.value == "printf" then
        if (nextToken st).map (fun tk => tk.value) == some "(" then parseCallStmt fuel st
        else if (nextToken st).map (fun tk => tk.value) == some "=" then
          parseAssignStmt fuel false st
        else .ok (none, perror "Invalid statement" none st)
      else .ok (none, perror "Invalid statement" none st)

/-- `Parser.parseVariableDeclaration`. -/
def parseVarDecl : Nat → PState → Except String (Option Node × PState)
  | 0, _ => .error "out of fuel"
  | fuel + 1, st =>
    match expectT "KEYWORD" none st with
    | (ty, st1) =>
      match expectT "IDENTIFIER" none st1 with
      | (nm, st2) =>
        match ty, nm with
        | some tyTok, some nmTok =>
          if curValue st2 == some "=" then do
            let (v, st3) ← parseExpression fuel (advance st2)
            let (_, st4) := expectT "SEPARATOR" (some ";") st3
            pure (some (.varDecl tyTok.value (.ident nmTok) v), st4)
          else do
            let (_, st4) := expectT "SEPARATOR" (some ";") st2
            pure (some (.varDecl tyTok.value (.ident nmTok) none), st4)
        | _, _ => pure (none, st2)

/-- `Parser.parseAssignment`: `new IdentifierNode(this.expect('IDENTIFIER'))`
dereferences the `null` returned by a failed `expect`, which is a JavaScript
TypeError, modelled as `Except.error`. -/
def parseAssignStmt : Nat → Bool → PState → Except String (Option Node × PState)
  | 0, _, _ => .error "out of fuel"
  | fuel + 1, noSemicolon, st =>
    match expectT "IDENTIFIER" none st with
    | (none, _) => .error "TypeError: Cannot read properties of null (reading 'value')"
    | (some idTok, st1) => do
      let (_, st2) := expectT "OPERATOR" (some "=") st1
      let (r, st3) ← parseExpression fuel st2
      let st4 := if noSemicolon then st3 else (expectT "SEPARATOR" (some ";") st3).2
      pure (some (.assign (.ident idTok) r), st4)

/-- `Parser.parseFunctionCallStatement`. -/
def parseCallStmt : Nat → PState → Except String (Option Node × PState)
  | 0, _ => .error "out of fuel"
  | fuel + 1, st =>
    match currentToken st with
    | none => .error "TypeError: Cannot read properties of null (reading 'type')"
    | some n =>
      if n.type != "IDENTIFIER" && n.type != "KEYWORD" then
        .ok (none, perror "Expected function name" none st)
      else do
        let (_, st2) := expectT "SEPARATOR" (some "(") (advance st)
        let (args, st4) ←
          if curValue st2 != some ")" then do
            let (a1, st3) ← parseExpression fuel st2
            parseArgsLoop fuel [a1] st3
          else pure ([], st2)
        let (_, st5) := expectT "SEPARATOR" (some ")") st4
        let (_, st6) := expectT "SEPARATOR" (some ";") st5
        pure (some (.call (.ident n) args), st6)

/-- The `while (currentToken()?.value === ',')` argument loop. -/
def parseArgsLoop : Nat → List (Option Node) → PState →
    Except String (List (Option Node) × PState)
  | 0, _, _ => .error "out of fuel"
  | fuel + 1, acc, st =>
    if curValue st == some "," then do
      let (a, st1) ← parseExpression fuel (advance st)
      parseArgsLoop fuel (acc ++ [a]) st1
    else pure (acc, st)

/-- `Parser.parseIfStatement`. -/
def parseIf : Nat → PState → Except String (Option Node × PState)
  | 0, _ => .error "out of fuel"
  | fuel + 1, st => do
    let (_, s1) := expectT "KEYWORD" (some "if") st
    let (_, s2) := expectT "SEPARATOR" (some "(") s1
    let (c, s3) ← parseExpression fuel s2
    let (_, s4) := expectT "SEPARATOR" (some ")") s3
    let (ib, s5) ← parseBlock fuel s4
    if curValue s5 == some "else" then do
      let (eb, s6) ← parseBlock fuel (advance s5)
      pure (some (.ifStmt c ib (some eb)), s6)
    else pure (some (.ifStmt c ib none), s5)

/-- `Parser.parseForLoop`. -/
def parseFor : Nat → PState → Except String (Option Node × PState)
  | 0, _ => .error "out of fuel"
  | fuel + 1, st => do
    let (_, s1) := expectT "KEYWORD" (some "for") st
    let (_, s2) := expectT "SEPARATOR" (some "(") s1
    let (ini, s3) ← parseVarDecl fuel s2
    let (cond, s4) ← parseExpression fuel s3
    let (_, s5) := expectT "SEPARATOR" (some ";") s4
    let (inc, s6) ← parseAssignStmt fuel true s5
    let (_, s7) := expectT "SEPARATOR" (some ")") s6
    let (body, s8) ← parseBlock fuel s7
    pure (some (.forLoop ini cond inc body), s8)

/-- `Parser.parseReturnStatement`. -/
def parseRet : Nat → PState → Except String (Option Node × PState)
  | 0, _ => .error "out of fuel"
  | fuel + 1, st => do
    let (_, s1) := expectT "KEYWORD" (some "return") st
    if curValue s1 != some ";" then do
      let (v, s2) ← parseExpression fuel s1
      let (_, s3) := expectT "SEPARATOR" (some ";") s2
      pure (some (.ret v), s3)
    else do
      let (_, s3) := expectT "SEPARATOR" (some ";") s1
      pure (some (.ret none), s3)

/-- `Parser.parseExpression`. -/
def parseExpression : Nat → PState → Except String (Option Node × PState)
  | 0, _ => .error "out of fuel"
  | fuel + 1, st => parseLogicalOr fuel st

/-- `Parser.parseLogicalOr`. -/
def parseLogicalOr : Nat → PState → Except String (Option Node × PState)
  | 0, _ => .error "out of fuel"
  | fuel + 1, st => do
    let (n, st1) ← parseLogicalAnd fuel st
    parseOrLoop fuel n st1

/-- The `||` fold loop of `parseLogicalOr`. -/
def parseOrLoop : Nat → Option Node → PState → Except String (Option Node × PState)
  | 0, _, _ => .error "out of fuel"
  | fuel + 1, n, st =>
    if curValue st == some "||" then do
      let (r, st1) ← parseLogicalAnd fuel (advance st)
      parseOrLoop fuel (some (.binop n "||" r)) st1
    else pure (n, st)

/-- `Parser.parseLogicalAnd`. -/
def parseLogicalAnd : Nat → PState → Except String (Option Node × PState)
  | 0, _ => .error "out of fuel"
  | fuel + 1, st => do
    let (n, st1) ← parseComparison fuel st
    parseAndLoop fuel n st1

/-- The `&&` fold loop of `parseLogicalAnd`. -/
def parseAndLoop : Nat → Option Node → PState → Except String (Option Node × PState)
  | 0, _, _ => .error "out of fuel"
  | fuel + 1, n, st =>
    if curValue st == some "&&" then do
      let (r, st1) ← parseComparison fuel (advance st)
      parseAndLoop fuel (some (.binop n "&&" r)) st1
    else pure (n, st)

/-- `Parser.parseComparison`. -/
def parseComparison : Nat → PState → Except String (Option Node × PState)
  | 0, _ => .error "out of fuel"
  | fuel + 1, st => do
    let (n, st1) ← parseTerm fuel st
    parseCompLoop fuel n st1

/-- The comparison-operator fold loop. -/
def parseCompLoop : Nat → Option Node → PState → Except String (Option Node × PState)
  | 0, _, _ => .error "out of fuel"
  | fuel + 1, n, st =>
    match currentToken st with
    | some t =>
      if t.type == "OPERATOR" && ["<", ">", "==", "!=", "<=", ">="].contains t.value then do
        let (r, st1) ← parseTerm fuel (advance st)
        parseCompLoop fuel (some (.binop n t.value r)) st1
      else pure (n, st)
    | none => pure (n, st)

/-- `Parser.parseTerm`. -/
def parseTerm : Nat → PState → Except String (Option Node × PState)
  | 0, _ => .error "out of fuel"
  | fuel + 1, st => do
    let (n, st1) ← parseFactor fuel st
    parseTermLoop fuel n st1

/-- The `+`/`-` fold loop of `parseTerm`. -/
def parseTermLoop : Nat → Option Node → PState → Except String (Option Node × PState)
  | 0, _, _ => .error "out of fuel"
  | fuel + 1, n, st =>
    match currentToken st with
    | some t =>
      if t.type == "OPERATOR" && ["+", "-"].contains t.value then do
        let (r, st1) ← parseFactor fuel (advance st)
        parseTermLoop fuel (some (.binop n t.value r)) st1
      else pure (n, st)
    | none => pure (n, st)

/-- `Parser.parseFactor`. -/
def parseFactor : Nat → PState → Except String (Option Node × PState)
  | 0, _ => .error "out of fuel"
  | fuel + 1, st => do
    let (n, st1) ← parsePrimary fuel st
    parseFactorLoop fuel n st1

/-- The `*`/`/` fold loop of `parseFactor`. -/
def parseFactorLoop : Nat → Option Node → PState → Except String (Option Node × PState)
  | 0, _, _ => .error "out of fuel"
  | fuel + 1, n, st =>
    match currentToken st with
    | some t =>
      if t.type == "OPERATOR" && ["*", "/"].contains t.value then do
        let (r, st1) ← parsePrimary fuel (advance st)
        parseFactorLoop fuel (some (.binop n t.value r)) st1
      else pure (n, st)
    | none => pure (n, st)

/-- `Parser.parsePrimary`. -/
def parsePrimary : Nat → PState → Except String (Option Node × PState)
  | 0, _ => .error "out of fuel"
  | fuel + 1, st =>
    match currentToken st with
    | none => .ok (none, perror "Unexpected EOF" none st)
    | some t =>
      if t.type == "IDENTIFIER" && (nextToken st).map (fun tk => tk.value) == some "(" then
        parseCallExpr fuel st
      else if t.type == "STRING_LIT" then .ok (some (.strLit t), advance st)
      else if t.type.endsWith "_LIT" then .ok (some (.num t), advance st)
      else if t.type == "IDENTIFIER" then .ok (some (.ident t), advance st)
      else if t.value == "(" then do
        let (n, s1) ← parseExpression fuel (advance st)
        let (_, s2) := expectT "SEPARATOR" (some ")") s1
        pure (n, s2)
      else .ok (none, perror "Invalid primary expression" none st)

/-- `Parser.parseFunctionCallExpression`; the `IdentifierNode` built from a
failed `expect` is again a TypeError (at node construction, after the
arguments are parsed). -/
def parseCallExpr : Nat → PState → Except String (Option Node × PState)
  | 0, _ => .error "out of fuel"
  | fuel + 1, st => do
    let (nmTok, st1) := expectT "IDENTIFIER" none st
    let (_, st2) := expectT "SEPARATOR" (some "(") st1
    let (args, st4) ←
      if curValue st2 != some ")" then do
        let (a1, st3) ← parseExpression fuel st2
        parseArgsLoop fuel [a1] st3
      else pure ([], st2)
    let (_, st5) := expectT "SEPARATOR" (some ")") st4
    match nmTok with
    | some nt => pure (some (.call (.ident nt) args), st5)
    | none => .error "TypeError: Cannot read properties of null (reading 'value')"

end

/-- `Parser.parse` on a token list: runs the function loop with generous
fuel and returns the `ProgramNode` and the collected syntax errors. -/
def parseTokens (toks : List Token) : Except String (Node × List String) := do
  let (fns, st) ← parseProgramLoop (20 * toks.length + 40) [] ⟨toks, 0, []⟩
  pure (.program fns, st.errors)

/-- The error branch of an `Except`, if any (a thrown JS exception). -/
def errOf {α : Type} : Except String α → Option String
  | .error e => some e
  | .ok _ => none

/-- The syntax-error list of a parse outcome (`none` when an exception was
thrown instead of returning). -/
def parseErrsOf : Except String (Node × List String) → Option (List String)
  | .error _ => none
  | .ok (_, errs) => some errs

/-! ### Parser claim theorems (C1, C6) -/

/-- C1 (refuting evaluation): on the well-tokenized source
`int main() { printf = 1; }` the statement begins with `printf` followed by
`=`, so `parseStatement` dispatches to `parseAssignment`, whose
`new IdentifierNode(this.expect('IDENTIFIER'))` dereferences the `null`
returned by the failed `expect` — the parse throws a TypeError instead of
returning a `Program` with collected syntax errors. -/
theorem parse_printf_assignment_throws :
    errOf (tokenize "int main() { printf = 1; }") = none ∧
    errOf ((tokenize "int main() { printf = 1; }").bind parseTokens) =
      some "TypeError: Cannot read properties of null (reading 'value')" :=
  ⟨rfl, rfl⟩

theorem recoverLoop_spec : ∀ (fuel : Nat) (st : PState),
    st.tokens.length < st.pos + fuel →
    ∃ k, (recoverLoop fuel st).tokens = st.tokens ∧
      (recoverLoop fuel st).errors = st.errors ∧
      (recoverLoop fuel st).pos = st.pos + k ∧
      (∀ j, j < k → ∃ tk, st.tokens[st.pos + j]? = some tk ∧
        tk.value ≠ ";" ∧ tk.value ≠ "\x7d") ∧
      (match st.tokens[st.pos + k]? with
       | some tk => tk.value = ";" ∨ tk.value = "\x7d"
       | none => True) := by
  intro fuel
  induction fuel with
  | zero =>
    intro st h
    refine ⟨0, rfl, rfl, by simp [recoverLoop], fun j hj => absurd hj (by omega), ?_⟩
    have hnone : st.tokens[st.pos + 0]? = none := by
      apply List.getElem?_eq_none
      omega
    rw [hnone]
    exact trivial
  | succ f ih =>
    intro st h
    cases hcur : currentToken st with
    | none =>
      have hstep : recoverLoop (f + 1) st = st := by
        rw [recoverLoop, hcur]
      refine ⟨0, by rw [hstep], by rw [hstep], by rw [hstep]; omega,
        fun j hj => absurd hj (by omega), ?_⟩
      unfold currentToken at hcur
      simp only [Nat.add_zero]
      rw [hcur]
      exact trivial
    | some t =>
      have hstep : recoverLoop (f + 1) st =
          if t.value == ";" || t.value == "\x7d" then st
          else recoverLoop f (advance st) := by
        rw [recoverLoop, hcur]
      by_cases hv : (t.value == ";" || t.value == "\x7d") = true
      · rw [hstep, if_pos hv]
        refine ⟨0, rfl, rfl, by omega, fun j hj => absurd hj (by omega), ?_⟩
        unfold currentToken at hcur
        simp only [Nat.add_zero]
        rw [hcur]
        simpa using hv
      · rw [hstep, if_neg hv]
        have hv2 : ¬ (t.value = ";" ∨ t.value = "\x7d") := by simpa using hv
        have hposlt : st.pos < st.tokens.length := by
          by_contra hc
          unfold currentToken at hcur
          rw [List.getElem?_eq_none (by omega)] at hcur
          cases hcur
        have hlen : (advance st).tokens.length < (advance st).pos + f := by
          simp only [advance]
          omega
        obtain ⟨k, h1, h2, h3, h4, h5⟩ := ih (advance st) hlen
        have h3a : (recoverLoop f (advance st)).pos = st.pos + 1 + k := h3
        refine ⟨k + 1, h1, h2, by omega, ?_, ?_⟩
        · intro j hj
          cases j with
          | zero =>
            refine ⟨t, by simpa [currentToken] using hcur, ?_, ?_⟩
            · intro hc; exact hv2 (Or.inl hc)
            · intro hc; exact hv2 (Or.inr hc)
          | succ j0 =>
            have hh : ∃ tk, st.tokens[st.pos + 1 + j0]? = some tk ∧
                tk.value ≠ ";" ∧ tk.value ≠ "\x7d" := h4 j0 (by omega)
            have hidx : st.pos + (j0 + 1) = st.pos + 1 + j0 := by omega
            rw [hidx]
            exact hh
        · have h5a : (match st.tokens[st.pos + 1 + k]? with
            | some tk => tk.value = ";" ∨ tk.value = "\x7d"
            | none => True) := h5
          have hidx : st.pos + (k + 1) = st.pos + 1 + k := by omega
          rw [hidx]
          exact h5a

/-- C6: the parser's error recovery is asymmetric.
(1) `recover` skips tokens until the current token is `;` or `}` (or the
stream ends), consuming the `;` when that is the terminator, and records no
further errors;
(2) inside a block, a failed statement with errors present resumes the
statement loop on the recovered state;
(3) at top level, when `parseFunctionDefinition` fails with errors present,
the parse loop stops immediately and returns the errors accumulated so far. -/
theorem recovery_asymmetry :
    (∀ st : PState, ∃ k, (recover st).tokens = st.tokens ∧
      (recover st).errors = st.errors ∧
      (∀ j, j < k → ∃ tk, st.tokens[st.pos + j]? = some tk ∧
        tk.value ≠ ";" ∧ tk.value ≠ "\x7d") ∧
      ((∃ tk, st.tokens[st.pos + k]? = some tk ∧ tk.value = ";" ∧
          (recover st).pos = st.pos + k + 1) ∨
       ((st.tokens[st.pos + k]? = none ∨
          ∃ tk, st.tokens[st.pos + k]? = some tk ∧ tk.value = "\x7d") ∧
          (recover st).pos = st.pos + k))) ∧
    (∀ (fuel : Nat) (acc : List Node) (st st' : PState) (t : Token),
      currentToken st = some t → t.value ≠ "\x7d" →
      parseStatement fuel st = .ok (none, st') → st'.errors ≠ [] →
      parseBlockLoop (fuel + 1) acc st = parseBlockLoop fuel acc (recover st')) ∧
    (∀ (fuel : Nat) (acc : List Node) (st st' : PState) (t : Token),
      currentToken st = some t →
      parseFuncDef fuel st = .ok (none, st') → st'.errors ≠ [] →
      parseProgramLoop (fuel + 1) acc st = .ok (acc, st')) := by
  refine ⟨?_, ?_, ?_⟩
  · intro st
    obtain ⟨k, h1, h2, h3, h4, h5⟩ :=
      recoverLoop_spec (st.tokens.length + 1) st (by omega)
    refine ⟨k, ?_, ?_, h4, ?_⟩
    · unfold recover
      split <;> simpa [advance] using h1
    · unfold recover
      split <;> simpa [advance] using h2
    · unfold recover
      have hcv : curValue (recoverLoop (st.tokens.length + 1) st) =
          st.tokens[st.pos + k]?.map (fun tk => tk.value) := by
        unfold curValue currentToken
        rw [h1, h3]
      cases hat : st.tokens[st.pos + k]? with
      | none =>
        right
        rw [hat] at hcv
        refine ⟨Or.inl rfl, ?_⟩
        rw [if_neg (by simp [hcv])]
        rw [h3]
      | some tk =>
        rw [hat] at h5 hcv
        rcases h5 with h5 | h5
        · left
          refine ⟨tk, rfl, h5, ?_⟩
          rw [if_pos (by simp [hcv, h5])]
          simp [advance, h3]
        · right
          refine ⟨Or.inr ⟨tk, rfl, h5⟩, ?_⟩
          rw [if_neg (by simp [hcv, h5])]
          exact h3
  · intro fuel acc st st' t hcur hnb hps herr
    obtain ⟨tks2, pos2, errs2⟩ := st'
    cases errs2 with
    | nil => exact absurd rfl herr
    | cons e es =>
      have hstep : parseBlockLoop (fuel + 1) acc st =
          (if t.value == "\x7d" then Except.ok (acc, st)
           else
             match parseStatement fuel st with
             | .error e => Except.error e
             | .ok (s, st1) =>
               match s with
               | some stmt => parseBlockLoop fuel (acc ++ [stmt]) st1
               | none =>
                 if st1.errors.isEmpty then parseBlockLoop fuel acc st1
                 else parseBlockLoop fuel acc (recover st1)) := by
        rw [parseBlockLoop, hcur]
      rw [hstep, if_neg (by simp [hnb]), hps]
      rfl
  · intro fuel acc st st' t hcur hpf herr
    obtain ⟨tks2, pos2, errs2⟩ := st'
    cases errs2 with
    | nil => exact absurd rfl herr
    | cons e es =>
      have hstep : parseProgramLoop (fuel + 1) acc st =
          (match parseFuncDef fuel st with
           | .error e => Except.error e
           | .ok (func, st1) =>
             match func with
             | some fn => parseProgramLoop fuel (acc ++ [fn]) st1
             | none =>
               if st1.errors.isEmpty then parseProgramLoop fuel acc st1
               else Except.ok (acc, st1)) := by
        rw [parseProgramLoop, hcur]
      rw [hstep, hpf]
      rfl

theorem recovery_asymmetry_witness :
    (∃ k, (recover ⟨[⟨"MISMATCH", "@", 1, 1⟩, ⟨"SEPARATOR", ";", 1, 3⟩,
        ⟨"IDENTIFIER", "x", 1, 5⟩], 1, []⟩).tokens =
        [⟨"MISMATCH", "@", 1, 1⟩, ⟨"SEPARATOR", ";", 1, 3⟩,
         ⟨"IDENTIFIER", "x", 1, 5⟩] ∧
      (recover (⟨[⟨"MISMATCH", "@", 1, 1⟩, ⟨"SEPARATOR", ";", 1, 3⟩,
        ⟨"IDENTIFIER", "x", 1, 5⟩], 1, []⟩ : PState)).errors = [] ∧
      (∀ j, j < k → ∃ tk, ([⟨"MISMATCH", "@", 1, 1⟩, ⟨"SEPARATOR", ";", 1, 3⟩,
          (⟨"IDENTIFIER", "x", 1, 5⟩ : Token)] : List Token)[1 + j]? = some tk ∧
        tk.value ≠ ";" ∧ tk.value ≠ "\x7d") ∧
      ((∃ tk, ([⟨"MISMATCH", "@", 1, 1⟩, ⟨"SEPARATOR", ";", 1, 3⟩,
          (⟨"IDENTIFIER", "x", 1, 5⟩ : Token)] : List Token)[1 + k]? = some tk ∧
          tk.value = ";" ∧
          (recover (⟨[⟨"MISMATCH", "@", 1, 1⟩, ⟨"SEPARATOR", ";", 1, 3⟩,
            ⟨"IDENTIFIER", "x", 1, 5⟩], 1, []⟩ : PState)).pos = 1 + k + 1) ∨
       ((([⟨"MISMATCH", "@", 1, 1⟩, ⟨"SEPARATOR", ";", 1, 3⟩,
           (⟨"IDENTIFIER", "x", 1, 5⟩ : Token)] : List Token)[1 + k]? = none ∨
          ∃ tk, ([⟨"MISMATCH", "@", 1, 1⟩, ⟨"SEPARATOR", ";", 1, 3⟩,
            (⟨"IDENTIFIER", "x", 1, 5⟩ : Token)] : List Token)[1 + k]? = some tk ∧
            tk.value = "\x7d") ∧
          (recover (⟨[⟨"MISMATCH", "@", 1, 1⟩, ⟨"SEPARATOR", ";", 1, 3⟩,
            ⟨"IDENTIFIER", "x", 1, 5⟩], 1, []⟩ : PState)).pos = 1 + k))) ∧
    parseBlockLoop 10 [] ⟨[⟨"MISMATCH", "@", 1, 1⟩, ⟨"SEPARATOR", ";", 1, 3⟩,
        ⟨"IDENTIFIER", "x", 1, 5⟩], 0, []⟩ =
      parseBlockLoop 9 []
        (recover ⟨[⟨"MISMATCH", "@", 1, 1⟩, ⟨"SEPARATOR", ";", 1, 3⟩,
          ⟨"IDENTIFIER", "x", 1, 5⟩], 1,
          ["Syntax Error: Invalid statement at line 1"]⟩) ∧
    parseProgramLoop 10 [] ⟨[⟨"MISMATCH", "~", 1, 1⟩, ⟨"MISMATCH", "~", 1, 3⟩], 0, []⟩ =
      Except.ok ([], ⟨[⟨"MISMATCH", "~", 1, 1⟩, ⟨"MISMATCH", "~", 1, 3⟩], 2,
        ["Syntax Error: Expected KEYWORD at line 1",
         "Syntax Error: Expected IDENTIFIER at line 1"]⟩) :=
  ⟨recovery_asymmetry.1 ⟨_, 1, []⟩,
   recovery_asymmetry.2.1 9 [] _ _ ⟨"MISMATCH", "@", 1, 1⟩ rfl (by decide) rfl
     (by decide),
   recovery_asymmetry.2.2 9 [] _ _ ⟨"MISMATCH", "~", 1, 1⟩ rfl rfl (by decide)⟩

/-! ## Semantic analyzer (`SymbolTable`, `SemanticAnalyzer` in `main.js`)

Scopes form an arena: a flat list (`this.scopes`) in creation order, each
scope holding an index to its parent; the cursor `current` is the index of
`this.currentScope`.  Symbol maps are association lists in insertion order,
mirroring the string-keyed JS object. -/

structure Sym where
  type : String
  params : List Node
deriving Repr

structure Scope where
  name : String
  parent : Option Nat
  symbols : List (String × Sym)
deriving Repr

/-- One recorded semantic error: the message and `node.token?.line`. -/
structure SemErr where
  message : String
  line : Option Nat
deriving DecidableEq, Repr

structure SemState where
  scopes : List Scope
  current : Nat
  errors : List SemErr
deriving Repr

/-- `SymbolTable.define`: fails (returning `false`) when the name is already
present in this scope's own map. -/
def scopeDefine (sc : Scope) (n : String) (s : Sym) : Scope × Bool :=
  if (sc.symbols.find? (fun p => p.1 == n)).isSome then (sc, false)
  else ({ sc with symbols := sc.symbols ++ [(n, s)] }, true)

/-- Defining through a scope reference, as an arena update at index `i`.
(The out-of-range branch is unreachable: the analyzer only passes the global
index 0 or the current cursor, both valid.) -/
def defineAt (st : SemState) (i : Nat) (n : String) (s : Sym) : SemState × Bool :=
  match st.scopes[i]? with
  | some sc =>
    ({ st with scopes := st.scopes.set i (scopeDefine sc n s).1 },
      (scopeDefine sc n s).2)
  | none => (st, true)

/-- `SymbolTable.lookup`: walk the parent chain from scope `i`.  Parent
indices are strictly smaller than their child's index in every state the
analyzer builds, so the chain from `i` has at most `i + 1` scopes and the
fuel below never runs out. -/
def lookupChain (scopes : List Scope) : Nat → Nat → String → Option Sym
  | 0, _, _ => none
  | fuel + 1, i, n =>
    match scopes[i]? with
    | none => none
    | some sc =>
      match sc.symbols.find? (fun p => p.1 == n) with
      | some p => some p.2
      | none =>
        match sc.parent with
        | some p => lookupChain scopes fuel p n
        | none => none

/-- `this.currentScope.lookup(name)` from the scope at index `i`. -/
def lookupFrom (st : SemState) (i : Nat) (n : String) : Option Sym :=
  lookupChain st.scopes (i + 1) i n

/-- `SemanticAnalyzer.enterScope`: push a child of the current scope and
move the cursor to it. -/
def enterScope (st : SemState) (name : String) : SemState :=
  { scopes := st.scopes ++ [⟨name, some st.current, []⟩],
    current := st.scopes.length,
    errors := st.errors }

/-- `SemanticAnalyzer.exitScope` (`currentScope = currentScope.parent`).
Exiting the global scope would make the JS cursor `null` and crash the next
define; no balanced run reaches that, and the model defaults to index 0. -/
def exitScope (st : SemState) : SemState :=
  { st with current := ((st.scopes[st.current]?).bind (fun sc => sc.parent)).getD 0 }

/-- `SemanticAnalyzer.error`. -/
def semErr (st : SemState) (msg : String) (line : Option Nat) : SemState :=
  { st with errors := st.errors ++ [⟨"Semantic Error: " ++ msg, line⟩] }

/-- A `.name` field access (`node.name.name`, `node.varName.name`, …): the
identifier text; on a node with no such field JS yields `undefined`, which
every use site (object key, template string) coerces to `"undefined"`. -/
def identStr : Node → String
  | .ident t => t.value
  | _ => "undefined"

/-- `node.token?.line`. -/
def nodeLine : Node → Option Nat
  | .ident t => some t.line
  | .num t => some t.line
  | .strLit t => some t.line
  | _ => none

/-- The parameter loop of `visitFunctionDefinitionNode`:
`node.params.forEach(p => currentScope.define(p.paramName.name, p.paramType))`,
ignoring the returned flag.  (A non-`ParamNode` entry would crash JS; the
parser never produces one, and the model skips it.) -/
def defineParams : List Node → SemState → SemState
  | [], st => st
  | p :: rest, st =>
    match p with
    | .param pt pn => defineParams rest (defineAt st st.current (identStr pn) ⟨pt, []⟩).1
    | _ => defineParams rest st

mutual

/-- `SemanticAnalyzer.visit`, dispatching on the node variant. -/
def visitSem : Node → SemState → SemState
  | .program cs, st => visitSemList cs st
  | .funcDef _ nm ps body, st =>
    match defineAt st 0 (identStr nm) ⟨"function", ps⟩ with
    | (st1, ok) =>
      exitScope (visitSem body (defineParams ps (enterScope
        (if ok then st1
         else semErr st1 ("Function '" ++ identStr nm ++ "' already defined.")
           (nodeLine nm))
        (identStr nm))))
  | .param _ _, st => st
  | .block ss, st => exitScope (visitSemList ss (enterScope st "block"))
  | .varDecl _ vn val, st =>
    match defineAt st st.current (identStr vn) ⟨"variable", []⟩ with
    | (st1, ok) =>
      visitSemOpt val
        (if ok then st1
         else semErr st1 ("Variable '" ++ identStr vn ++ "' already declared.")
           (nodeLine vn))
  | .assign l r, st => visitSemOpt r (visitSem l st)
  | .binop l _ r, st => visitSemOpt r (visitSemOpt l st)
  | .num _, st => st
  | .ident t, st =>
    if (lookupFrom st st.current t.value).isSome then st
    else semErr st ("Undeclared variable '" ++ t.value ++ "'.") (some t.line)
  | .strLit _, st => st
  | .call nm args, st =>
    visitSemOptList args (visitSem nm
      (match lookupFrom st st.current (identStr nm) with
       | none => semErr st ("Function '" ++ identStr nm ++ "' not defined.")
           (nodeLine nm)
       | some f =>
         if f.type != "function" then
           semErr st ("'" ++ identStr nm ++ "' is not a function.") (nodeLine nm)
         else st))
  | .ifStmt c ib eb, st => visitSemOpt eb (visitSem ib (visitSemOpt c st))
  | .forLoop ini c inc body, st =>
    exitScope (visitSem body (visitSemOpt inc (visitSemOpt c
      (visitSemOpt ini (enterScope st "for-loop")))))
  | .ret v, st => visitSemOpt v st

/-- `genericVisit` over a child array. -/
def visitSemList : List Node → SemState → SemState
  | [], st => st
  | n :: rest, st => visitSemList rest (visitSem n st)

/-- `visit` on a possibly-absent child (`visit(null)` is a no-op). -/
def visitSemOpt : Option Node → SemState → SemState
  | none, st => st
  | some n, st => visitSem n st

/-- `genericVisit` over an argument array whose entries may be `null`. -/
def visitSemOptList : List (Option Node) → SemState → SemState
  | [], st => st
  | o :: rest, st => visitSemOptList rest (visitSemOpt o st)

end

/-- The `SemanticAnalyzer` constructor state: a global scope holding the
built-in `printf`. -/
def initSemState : SemState :=
  { scopes := [⟨"global", none, [("printf", ⟨"function", []⟩)]⟩],
    current := 0,
    errors := [] }

/-- `SemanticAnalyzer.analyze`: visit the AST from the initial state; the
returned state carries the error list and the flat scope list. -/
def analyze (ast : Node) : SemState :=
  visitSem ast initSemState

/-! ## TAC generator (`TACGenerator` in `main.js`)

`emit` chooses an instruction shape from the truthiness of its arguments;
we record the shape as an `Instr` and keep the exact formatted line
reachable through `render`. -/

inductive Instr where
  | asg2 (result arg1 op arg2 : String)
  | asg1 (result arg1 : String)
  | opA (op arg1 : String)
  | onlyOp (op : String)
deriving DecidableEq, Repr

/-- JS truthiness of an `emit` argument: `null`/`undefined` and the empty
string are falsy. -/
def truthy : Option String → Bool
  | none => false
  | some s => !s.isEmpty

/-- Template interpolation of a possibly-`null` value. -/
def jsShow : Option String → String
  | some s => s
  | none => "null"

/-- `TACGenerator.emit(op, arg1, arg2, result)`. -/
def emitInstr (op : String) (arg1 arg2 result : Option String) : Instr :=
  if truthy result && truthy arg2 then .asg2 (jsShow result) (jsShow arg1) op (jsShow arg2)
  else if truthy result && truthy arg1 then .asg1 (jsShow result) (jsShow arg1)
  else if truthy arg1 then .opA op (jsShow arg1)
  else .onlyOp op

/-- The formatted line pushed onto `this.code`. -/
def render : Instr → String
  | .asg2 r a1 op a2 => r ++ " = " ++ a1 ++ " " ++ op ++ " " ++ a2
  | .asg1 r a1 => r ++ " = " ++ a1
  | .opA op a1 => op ++ " " ++ a1
  | .onlyOp op => op ++ ":"

structure TState where
  tempCounter : Nat
  labelCounter : Nat
  code : List Instr
deriving DecidableEq, Repr

def pushI (st : TState) (i : Instr) : TState := { st with code := st.code ++ [i] }

/-- `TACGenerator.newTemp`. -/
def newTemp (st : TState) : String × TState :=
  ("t" ++ toString st.tempCounter, { st with tempCounter := st.tempCounter + 1 })

/-- `TACGenerator.newLabel`. -/
def newLabel (st : TState) : String × TState :=
  ("L" ++ toString st.labelCounter, { st with labelCounter := st.labelCounter + 1 })

/-- A `.name`-field access that keeps JS falsiness: `undefined` on a
non-identifier node becomes `none`. -/
def identStrOpt : Node → Option String
  | .ident t => some t.value
  | _ => none

/-- The `argTemps.forEach(argTemp => emit('param', argTemp))` loop. -/
def pushParams : List (Option String) → TState → TState
  | [], st => st
  | a :: rest, st => pushParams rest (pushI st (emitInstr "param" a none none))

mutual

/-- `TACGenerator.visit`: dispatch on the node variant; node kinds without a
visit method (`ParamNode`) return `null`. -/
def visitTac : Node → TState → Option String × TState
  | .program cs, st => (none, visitTacList cs st)
  | .funcDef _ nm _ body, st =>
    (none, pushI (visitTac body
        (pushI st (emitInstr ("func begin " ++ identStr nm) none none none))).2
      (emitInstr ("func end " ++ identStr nm) none none none))
  | .param _ _, st => (none, st)
  | .block ss, st => (none, visitTacList ss st)
  | .varDecl _ vn val, st =>
    match val with
    | none => (none, st)
    | some v =>
      match visitTac v st with
      | (tmp, st1) => (none, pushI st1 (emitInstr "=" tmp none (identStrOpt vn)))
  | .assign l r, st =>
    match visitTacOpt r st with
    | (tmp, st1) => (identStrOpt l, pushI st1 (emitInstr "=" tmp none (identStrOpt l)))
  | .binop l op r, st =>
    match visitTacOpt l st with
    | (lt, st1) =>
      match visitTacOpt r st1 with
      | (rt, st2) =>
        match newTemp st2 with
        | (t, st3) => (some t, pushI st3 (emitInstr op lt rt (some t)))
  | .num tk, st => (some tk.value, st)
  | .ident tk, st => (some tk.value, st)
  | .strLit tk, st => (some tk.value, st)
  | .call nm args, st =>
    match visitTacOptList args st with
    | (argTemps, st1) =>
      match newTemp (pushParams argTemps st1) with
      | (t, st3) =>
        (some t, pushI st3 (emitInstr "call" (some (identStr nm))
          (some (toString argTemps.length)) (some t)))
  | .ifStmt c ib eb, st =>
    match visitTacOpt c st with
    | (ct, s1) =>
      match newLabel s1 with
      | (labE, s2) =>
        match newLabel s2 with
        | (labEnd, s3) =>
          (none, pushI
            ((visitTacOpt eb
              (pushI
                (pushI ((visitTac ib
                  (pushI s3 (emitInstr "if_false" ct (some ("goto " ++ labE))
                    none))).2)
                  (emitInstr "goto" (some labEnd) none none))
                (emitInstr labE none none none))).2)
            (emitInstr labEnd none none none))
  | .forLoop ini c inc body, st =>
    match newLabel st with
    | (labS, s1) =>
      match newLabel s1 with
      | (labEnd, s2) =>
        match visitTacOpt c
            (pushI ((visitTacOpt ini s2).2) (emitInstr labS none none none)) with
        | (ct, s5) =>
          (none, pushI
            (pushI ((visitTacOpt inc ((visitTac body
              (pushI s5 (emitInstr "if_false" ct (some ("goto " ++ labEnd))
                none))).2)).2)
              (emitInstr "goto" (some labS) none none))
            (emitInstr labEnd none none none))
  | .ret v, st =>
    match v with
    | some e =>
      match visitTac e st with
      | (vt, s1) => (none, pushI s1 (emitInstr "return" vt none none))
    | none => (none, pushI st (emitInstr "return" none none none))

/-- `forEach(child => visit(child))`, values discarded. -/
def visitTacList : List Node → TState → TState
  | [], st => st
  | n :: rest, st => visitTacList rest (visitTac n st).2

/-- `visit` on a possibly-`null` child (returns `null` on `null`). -/
def visitTacOpt : Option Node → TState → Option String × TState
  | none, st => (none, st)
  | some n, st => visitTac n st

/-- `node.args.map(arg => visit(arg))`: collect argument values in order. -/
def visitTacOptList : List (Option Node) → TState → List (Option String) × TState
  | [], st => ([], st)
  | o :: rest, st =>
    match visitTacOpt o st with
    | (v, st1) =>
      match visitTacOptList rest st1 with
      | (vs, st2) => (v :: vs, st2)

end

/-- `TACGenerator.generate`: reset counters and code, visit, return the
instruction sequence. -/
def generate (ast : Node) : List Instr :=
  (visitTac ast ⟨0, 0, []⟩).2.code

/-- The exact string lines of `this.code`. -/
def generateLines (ast : Node) : List String :=
  (generate ast).map render

/-- Does the string start with the letter `L` (the shape of generated
labels `L<n>`)? -/
def isLabelStr (s : String) : Bool :=
  match s.toList with
  | 'L' :: _ => true
  | _ => false

/-- A label-declaration instruction: an op-only emission whose op is a label
`L<n>`.  Among op-only instructions the generator emits (labels, `return`,
`func begin/end <name>`, and the degenerate shapes from `null` arguments)
only labels start with `L`. -/
def isLabelDecl : Instr → Bool
  | .onlyOp op => isLabelStr op
  | _ => false

/-- An unconditional jump `goto <label>` (the conditional branch renders as
`if_false <cond>` because `emit` drops its second argument). -/
def isGoto : Instr → Bool
  | .opA op _ => op == "goto"
  | _ => false

/-- Number of label-declaration instructions in a code segment. -/
def countLabelDecls (code : List Instr) : Nat := (code.filter isLabelDecl).length

/-- Number of unconditional jumps in a code segment. -/
def countGotos (code : List Instr) : Nat := (code.filter isGoto).length

/-! ### TAC lemmas and claim theorems (C4) -/

theorem node_sizeOf_pos (n : Node) : 0 < sizeOf n := by
  cases n <;> simp_arith

/-- The code list only grows: `s2` extends `s1` by a suffix. -/
def codeExt (s1 s2 : TState) : Prop := ∃ e, s2.code = s1.code ++ e

theorem codeExt_refl (s : TState) : codeExt s s := ⟨[], by simp⟩

theorem codeExt_trans {a b c : TState} (h1 : codeExt a b) (h2 : codeExt b c) :
    codeExt a c := by
  obtain ⟨e1, he1⟩ := h1
  obtain ⟨e2, he2⟩ := h2
  exact ⟨e1 ++ e2, by rw [he2, he1]; simp⟩

theorem codeExt_push (s : TState) (i : Instr) : codeExt s (pushI s i) := ⟨[i], rfl⟩

theorem codeExt_newTemp (s : TState) : codeExt s (newTemp s).2 := ⟨[], by simp [newTemp]⟩

theorem codeExt_newLabel (s : TState) : codeExt s (newLabel s).2 := ⟨[], by simp [newLabel]⟩

theorem codeExt_pushParams : ∀ (vs : List (Option String)) (s : TState),
    codeExt s (pushParams vs s) := by
  intro vs
  induction vs with
  | nil => intro s; exact codeExt_refl s
  | cons a rest ih =>
    intro s
    exact codeExt_trans (codeExt_push s (emitInstr "param" a none none))
      (ih (pushI s (emitInstr "param" a none none)))

theorem tac_code_extends : ∀ k : Nat,
    (∀ (node : Node) (st : TState), sizeOf node ≤ k → codeExt st (visitTac node st).2) ∧
    (∀ (cs : List Node) (st : TState), sizeOf cs ≤ k → codeExt st (visitTacList cs st)) ∧
    (∀ (o : Option Node) (st : TState), sizeOf o ≤ k → codeExt st (visitTacOpt o st).2) ∧
    (∀ (os : List (Option Node)) (st : TState), sizeOf os ≤ k →
      codeExt st (visitTacOptList os st).2) := by
  intro k
  induction k with
  | zero =>
    refine ⟨fun node st h => absurd h (by have := node_sizeOf_pos node; omega),
      fun cs st h => absurd h (by cases cs <;> simp_arith),
      fun o st h => absurd h (by cases o <;> simp_arith),
      fun os st h => absurd h (by cases os <;> simp_arith)⟩
  | succ k ih =>
    obtain ⟨ihN, ihL, ihO, ihOL⟩ := ih
    refine ⟨?_, ?_, ?_, ?_⟩
    · intro node st h
      cases node with
      | program cs =>
        simpa [visitTac] using ihL cs st (by simp_arith at h; omega)
      | funcDef rt nm ps body =>
        simp only [visitTac]
        refine codeExt_trans (codeExt_push st _) (codeExt_trans
          (ihN body _ (by simp_arith at h; omega)) (codeExt_push _ _))
      | param pt pn => simp only [visitTac]; exact codeExt_refl st
      | block ss =>
        simpa [visitTac] using ihL ss st (by simp_arith at h; omega)
      | varDecl vt vn val =>
        cases val with
        | none => simp only [visitTac]; exact codeExt_refl st
        | some v =>
          rcases hv : visitTac v st with ⟨tmp, s1⟩
          simp only [visitTac, hv]
          have h1 : codeExt st s1 := by
            have := ihN v st (by simp_arith at h; omega)
            rw [hv] at this
            exact this
          exact codeExt_trans h1 (codeExt_push s1 _)
      | assign l r =>
        rcases hv : visitTacOpt r st with ⟨tmp, s1⟩
        simp only [visitTac, hv]
        have h1 : codeExt st s1 := by
          have := ihO r st (by simp_arith at h; omega)
          rw [hv] at this
          exact this
        exact codeExt_trans h1 (codeExt_push s1 _)
      | binop l op r =>
        rcases hl : visitTacOpt l st with ⟨lt, s1⟩
        rcases hr : visitTacOpt r s1 with ⟨rt, s2⟩
        rcases ht : newTemp s2 with ⟨t, s3⟩
        simp only [visitTac, hl, hr, ht]
        have h1 : codeExt st s1 := by
          have := ihO l st (by simp_arith at h; omega)
          rwa [hl] at this
        have h2 : codeExt s1 s2 := by
          have := ihO r s1 (by simp_arith at h; omega)
          rwa [hr] at this
        have h3 : codeExt s2 s3 := by
          have := codeExt_newTemp s2
          rwa [ht] at this
        exact codeExt_trans h1 (codeExt_trans h2 (codeExt_trans h3 (codeExt_push s3 _)))
      | num tk => simp only [visitTac]; exact codeExt_refl st
      | ident tk => simp only [visitTac]; exact codeExt_refl st
      | strLit tk => simp only [visitTac]; exact codeExt_refl st
      | call nm args =>
        rcases ha : visitTacOptList args st with ⟨vs, s1⟩
        rcases ht : newTemp (pushParams vs s1) with ⟨t, s3⟩
        simp only [visitTac, ha, ht]
        have h1 : codeExt st s1 := by
          have := ihOL args st (by simp_arith at h; omega)
          rwa [ha] at this
        have h2 : codeExt s1 (pushParams vs s1) := codeExt_pushParams vs s1
        have h3 : codeExt (pushParams vs s1) s3 := by
          have := codeExt_newTemp (pushParams vs s1)
          rwa [ht] at this
        exact codeExt_trans h1 (codeExt_trans h2 (codeExt_trans h3 (codeExt_push s3 _)))
      | ifStmt c ib eb =>
        rcases hc : visitTacOpt c st with ⟨ct, s1⟩
        rcases hl1 : newLabel s1 with ⟨labE, s2⟩
        rcases hl2 : newLabel s2 with ⟨labEnd, s3⟩
        simp only [visitTac, hc, hl1, hl2]
        have h1 : codeExt st s1 := by
          have := ihO c st (by simp_arith at h; omega)
          rwa [hc] at this
        have h2 : codeExt s1 s2 := by
          have := codeExt_newLabel s1
          rwa [hl1] at this
        have h3 : codeExt s2 s3 := by
          have := codeExt_newLabel s2
          rwa [hl2] at this
        refine codeExt_trans h1 (codeExt_trans h2 (codeExt_trans h3
          (codeExt_trans (codeExt_push s3 _) (codeExt_trans
            (ihN ib _ (by simp_arith at h; omega)) (codeExt_trans (codeExt_push _ _)
              (codeExt_trans (codeExt_push _ _) (codeExt_trans
                (ihO eb _ (by simp_arith at h; omega)) (codeExt_push _ _))))))))
      | forLoop ini c inc body =>
        rcases hl1 : newLabel st with ⟨labS, s1⟩
        rcases hl2 : newLabel s1 with ⟨labEnd, s2⟩
        simp only [visitTac, hl1, hl2]
        have h1 : codeExt st s1 := by
          have := codeExt_newLabel st
          rwa [hl1] at this
        have h2 : codeExt s1 s2 := by
          have := codeExt_newLabel s1
          rwa [hl2] at this
        rcases hcnd : visitTacOpt c
            (pushI (visitTacOpt ini s2).2 (emitInstr labS none none none)) with ⟨ct, s5⟩
        simp only [hcnd]
        have h3 : codeExt s2 (visitTacOpt ini s2).2 :=
          ihO ini s2 (by simp_arith at h; omega)
        have h4 : codeExt (visitTacOpt ini s2).2
            (pushI (visitTacOpt ini s2).2 (emitInstr labS none none none)) :=
          codeExt_push _ _
        have h5 : codeExt
            (pushI (visitTacOpt ini s2).2 (emitInstr labS none none none)) s5 := by
          have := ihO c (pushI (visitTacOpt ini s2).2 (emitInstr labS none none none))
            (by simp_arith at h; omega)
          rwa [hcnd] at this
        refine codeExt_trans h1 (codeExt_trans h2 (codeExt_trans h3 (codeExt_trans h4
          (codeExt_trans h5 (codeExt_trans (codeExt_push s5 _) (codeExt_trans
            (ihN body _ (by simp_arith at h; omega)) (codeExt_trans
              (ihO inc _ (by simp_arith at h; omega)) (codeExt_trans (codeExt_push _ _)
                (codeExt_push _ _)))))))))
      | ret v =>
        cases v with
        | none => simp only [visitTac]; exact codeExt_push st _
        | some e0 =>
          rcases hv : visitTac e0 st with ⟨vt, s1⟩
          simp only [visitTac, hv]
          have h1 : codeExt st s1 := by
            have := ihN e0 st (by simp_arith at h; omega)
            rwa [hv] at this
          exact codeExt_trans h1 (codeExt_push s1 _)
    · intro cs st h
      cases cs with
      | nil => simp only [visitTacList]; exact codeExt_refl st
      | cons n rest =>
        simp only [visitTacList]
        exact codeExt_trans (ihN n st (by simp_arith at h; omega))
          (ihL rest _ (by simp_arith at h; omega))
    · intro o st h
      cases o with
      | none => simp only [visitTacOpt]; exact codeExt_refl st
      | some n =>
        simpa [visitTacOpt] using ihN n st (by simp_arith at h; omega)
    · intro os st h
      cases os with
      | nil => simp only [visitTacOptList]; exact codeExt_refl st
      | cons o rest =>
        rcases ho : visitTacOpt o st with ⟨v, s1⟩
        rcases hrest : visitTacOptList rest s1 with ⟨vs, s2⟩
        simp only [visitTacOptList, ho, hrest]
        have h1 : codeExt st s1 := by
          have := ihO o st (by simp_arith at h; omega)
          rwa [ho] at this
        have h2 : codeExt s1 s2 := by
          have := ihOL rest s1 (by simp_arith at h; omega)
          rwa [hrest] at this
        exact codeExt_trans h1 h2

/-- `codeExt` specialized to any node at any state (fuel-free corollary). -/
theorem visitTac_extends (node : Node) (st : TState) : codeExt st (visitTac node st).2 :=
  (tac_code_extends (sizeOf node)).1 node st (Nat.le_refl _)

theorem visitTacOpt_extends (o : Option Node) (st : TState) :
    codeExt st (visitTacOpt o st).2 :=
  (tac_code_extends (sizeOf o)).2.2.1 o st (Nat.le_refl _)

theorem countLabelDecls_append (a b : List Instr) :
    countLabelDecls (a ++ b) = countLabelDecls a + countLabelDecls b := by
  simp [countLabelDecls, List.filter_append]

theorem countGotos_append (a b : List Instr) :
    countGotos (a ++ b) = countGotos a + countGotos b := by
  simp [countGotos, List.filter_append]

theorem label_append_ne_empty (s : String) : ("L" ++ s).isEmpty = false := by
  rw [Bool.eq_false_iff]
  intro h
  have h2 : ("L" ++ s) = "" := (String.isEmpty_iff _).mp h
  have h3 := congrArg String.data h2
  simp [String.data_append] at h3

theorem emit_goto_shape (s : String) :
    emitInstr "goto" (some ("L" ++ s)) none none = .opA "goto" ("L" ++ s) := by
  simp [emitInstr, truthy, jsShow, label_append_ne_empty s]

theorem emit_label_shape (s : String) :
    emitInstr ("L" ++ s) none none none = .onlyOp ("L" ++ s) := by
  simp [emitInstr, truthy]

theorem labelStr_true (s : String) : isLabelStr ("L" ++ s) = true := by
  simp only [isLabelStr, String.toList, String.data_append]
  rfl

theorem label_isLabelDecl (s : String) : isLabelDecl (.onlyOp ("L" ++ s)) = true := by
  simp [isLabelDecl, labelStr_true]

theorem goto_isGoto (s : String) : isGoto (.opA "goto" s) = true := by
  simp [isGoto]

theorem condJump_not_label_not_goto (ct a2 : Option String) :
    isLabelDecl (emitInstr "if_false" ct a2 none) = false ∧
    isGoto (emitInstr "if_false" ct a2 none) = false := by
  unfold emitInstr
  split
  · next hb => simp [truthy] at hb
  · split
    · next hb => simp [truthy] at hb
    · split
      · exact ⟨rfl, by simp [isGoto]⟩
      · refine ⟨?_, rfl⟩
        simp only [isLabelDecl, isLabelStr]
        rfl

theorem pushI_code (s : TState) (i : Instr) : (pushI s i).code = s.code ++ [i] := rfl

/-- C4 (amended): lowering `if (c) { A } else { B }` emits — after the code
that evaluates the condition — exactly the subsequence: conditional branch,
A's code, one unconditional jump to the end label, the else-label, B's code
(empty when the else-branch is absent), the end label.  Both labels are
allocated and declared even when B is absent; the single new unconditional
jump sits immediately after the last instruction of A's code and immediately
before the first of the two labels; and the subsequence contains exactly two
label declarations and exactly one unconditional jump *beyond those inside
A's and B's own code* (a nested if/for inside a branch contributes its own —
that is what refutes the original `exactly two … exactly one` count). -/
theorem if_lowering_shape (c : Option Node) (A : Node) (B : Option Node) (st : TState)
    (ct : Option String) (s1 : TState) (hc : visitTacOpt c st = (ct, s1)) :
    ∃ eA eB,
      (visitTac (Node.ifStmt c A B) st).2.code =
        s1.code
        ++ [emitInstr "if_false" ct (some ("goto " ++ ("L" ++ toString s1.labelCounter))) none]
        ++ eA
        ++ [Instr.opA "goto" ("L" ++ toString (s1.labelCounter + 1)),
            Instr.onlyOp ("L" ++ toString s1.labelCounter)]
        ++ eB
        ++ [Instr.onlyOp ("L" ++ toString (s1.labelCounter + 1))] ∧
      (visitTac A (pushI { s1 with labelCounter := s1.labelCounter + 2 }
        (emitInstr "if_false" ct (some ("goto " ++ ("L" ++ toString s1.labelCounter)))
          none))).2.code =
        s1.code ++ [emitInstr "if_false" ct
          (some ("goto " ++ ("L" ++ toString s1.labelCounter))) none] ++ eA ∧
      (B = none → eB = []) ∧
      countLabelDecls ((visitTac (Node.ifStmt c A B) st).2.code.drop s1.code.length) =
        2 + countLabelDecls eA + countLabelDecls eB ∧
      countGotos ((visitTac (Node.ifStmt c A B) st).2.code.drop s1.code.length) =
        1 + countGotos eA + countGotos eB := by
  have hlabE : newLabel s1 = ("L" ++ toString s1.labelCounter,
      { s1 with labelCounter := s1.labelCounter + 1 }) := rfl
  have hlabEnd : newLabel { s1 with labelCounter := s1.labelCounter + 1 } =
      ("L" ++ toString (s1.labelCounter + 1),
       { s1 with labelCounter := s1.labelCounter + 2 }) := rfl
  obtain ⟨eA, hA⟩ := visitTac_extends A
    (pushI { s1 with labelCounter := s1.labelCounter + 2 }
      (emitInstr "if_false" ct (some ("goto " ++ ("L" ++ toString s1.labelCounter))) none))
  obtain ⟨eB, hB⟩ := visitTacOpt_extends B
    (pushI (pushI (visitTac A (pushI { s1 with labelCounter := s1.labelCounter + 2 }
      (emitInstr "if_false" ct (some ("goto " ++ ("L" ++ toString s1.labelCounter)))
        none))).2
      (emitInstr "goto" (some ("L" ++ toString (s1.labelCounter + 1))) none none))
      (emitInstr ("L" ++ toString s1.labelCounter) none none none))
  refine ⟨eA, eB, ?_⟩
  have hout : (visitTac (Node.ifStmt c A B) st).2.code =
      s1.code
      ++ [emitInstr "if_false" ct (some ("goto " ++ ("L" ++ toString s1.labelCounter))) none]
      ++ eA
      ++ [Instr.opA "goto" ("L" ++ toString (s1.labelCounter + 1)),
          Instr.onlyOp ("L" ++ toString s1.labelCounter)]
      ++ eB
      ++ [Instr.onlyOp ("L" ++ toString (s1.labelCounter + 1))] := by
    simp only [visitTac, hc, hlabE, hlabEnd]
    rw [pushI_code, hB, pushI_code, pushI_code, hA, pushI_code]
    rw [emit_goto_shape (toString (s1.labelCounter + 1)),
      emit_label_shape (toString s1.labelCounter),
      emit_label_shape (toString (s1.labelCounter + 1))]
    simp
  have hAseg : (visitTac A (pushI { s1 with labelCounter := s1.labelCounter + 2 }
      (emitInstr "if_false" ct (some ("goto " ++ ("L" ++ toString s1.labelCounter)))
        none))).2.code =
      s1.code ++ [emitInstr "if_false" ct
        (some ("goto " ++ ("L" ++ toString s1.labelCounter))) none] ++ eA := by
    rw [hA, pushI_code]
  have hBnone : B = none → eB = [] := by
    intro hbn
    subst hbn
    simp only [visitTacOpt] at hB
    have hlen := congrArg List.length hB
    simp at hlen
    exact hlen
  refine ⟨hout, hAseg, hBnone, ?_, ?_⟩
  · rw [hout]
    simp only [List.append_assoc]
    rw [List.drop_left]
    have hcj := (condJump_not_label_not_goto ct
      (some ("goto " ++ ("L" ++ toString s1.labelCounter)))).1
    simp only [countLabelDecls_append]
    have c1 : countLabelDecls [emitInstr "if_false" ct
        (some ("goto " ++ ("L" ++ toString s1.labelCounter))) none] = 0 := by
      simp [countLabelDecls, List.filter, hcj]
    have c2 : countLabelDecls [Instr.opA "goto" ("L" ++ toString (s1.labelCounter + 1)),
        Instr.onlyOp ("L" ++ toString s1.labelCounter)] = 1 := by
      simp [countLabelDecls, List.filter, isLabelDecl, labelStr_true]
    have c3 : countLabelDecls [Instr.onlyOp ("L" ++ toString (s1.labelCounter + 1))] = 1 := by
      simp [countLabelDecls, List.filter, isLabelDecl, labelStr_true]
    rw [c1, c2, c3]
    omega
  · rw [hout]
    simp only [List.append_assoc]
    rw [List.drop_left]
    have hcj := (condJump_not_label_not_goto ct
      (some ("goto " ++ ("L" ++ toString s1.labelCounter)))).2
    simp only [countGotos_append]
    have c1 : countGotos [emitInstr "if_false" ct
        (some ("goto " ++ ("L" ++ toString s1.labelCounter))) none] = 0 := by
      simp [countGotos, List.filter, hcj]
    have c2 : countGotos [Instr.opA "goto" ("L" ++ toString (s1.labelCounter + 1)),
        Instr.onlyOp ("L" ++ toString s1.labelCounter)] = 1 := by
      simp [countGotos, List.filter, isGoto]
    have c3 : countGotos [Instr.onlyOp ("L" ++ toString (s1.labelCounter + 1))] = 0 := by
      simp [countGotos, List.filter, isGoto]
    rw [c1, c2, c3]
    omega

theorem if_lowering_shape_witness :
    ∃ eA eB,
      (visitTac (Node.ifStmt (some (.num ⟨"INT_LIT", "1", 1, 1⟩)) (.block []) none)
        (⟨0, 0, []⟩ : TState)).2.code =
        (⟨0, 0, []⟩ : TState).code
        ++ [emitInstr "if_false" (some "1")
             (some ("goto " ++ ("L" ++ toString (⟨0, 0, []⟩ : TState).labelCounter))) none]
        ++ eA
        ++ [Instr.opA "goto" ("L" ++ toString ((⟨0, 0, []⟩ : TState).labelCounter + 1)),
            Instr.onlyOp ("L" ++ toString (⟨0, 0, []⟩ : TState).labelCounter)]
        ++ eB
        ++ [Instr.onlyOp ("L" ++ toString ((⟨0, 0, []⟩ : TState).labelCounter + 1))] ∧
      (visitTac (.block []) (pushI { (⟨0, 0, []⟩ : TState) with
          labelCounter := (⟨0, 0, []⟩ : TState).labelCounter + 2 }
        (emitInstr "if_false" (some "1")
          (some ("goto " ++ ("L" ++ toString (⟨0, 0, []⟩ : TState).labelCounter)))
          none))).2.code =
        (⟨0, 0, []⟩ : TState).code ++ [emitInstr "if_false" (some "1")
          (some ("goto " ++ ("L" ++ toString (⟨0, 0, []⟩ : TState).labelCounter))) none]
          ++ eA ∧
      ((none : Option Node) = none → eB = []) ∧
      countLabelDecls ((visitTac (Node.ifStmt (some (.num ⟨"INT_LIT", "1", 1, 1⟩))
          (.block []) none) (⟨0, 0, []⟩ : TState)).2.code.drop
          (⟨0, 0, []⟩ : TState).code.length) =
        2 + countLabelDecls eA + countLabelDecls eB ∧
      countGotos ((visitTac (Node.ifStmt (some (.num ⟨"INT_LIT", "1", 1, 1⟩))
          (.block []) none) (⟨0, 0, []⟩ : TState)).2.code.drop
          (⟨0, 0, []⟩ : TState).code.length) =
        1 + countGotos eA + countGotos eB :=
  if_lowering_shape (some (.num ⟨"INT_LIT", "1", 1, 1⟩)) (.block []) none
    ⟨0, 0, []⟩ (some "1") ⟨0, 0, []⟩ rfl

/-- C4 (counterexample): for the if-statement
`if (1) { if (1) { } } else { }` — whose true branch contains a nested if —
the emitted instruction subsequence contains four label declarations and two
unconditional jumps, not exactly two and exactly one as the claim states for
every if-statement. -/
theorem if_lowering_counts_counterexample :
    ¬ (countLabelDecls ((visitTac (Node.ifStmt (some (.num ⟨"INT_LIT", "1", 1, 18⟩))
          (.block [Node.ifStmt (some (.num ⟨"INT_LIT", "1", 1, 24⟩)) (.block []) none])
          (some (.block []))) ⟨0, 0, []⟩).2.code) = 2 ∧
        countGotos ((visitTac (Node.ifStmt (some (.num ⟨"INT_LIT", "1", 1, 18⟩))
          (.block [Node.ifStmt (some (.num ⟨"INT_LIT", "1", 1, 24⟩)) (.block []) none])
          (some (.block []))) ⟨0, 0, []⟩).2.code) = 1) := by
  decide

/-! ### Semantic-analyzer lemmas and claim theorems (C5, C7, C8, C10) -/

theorem list_set_self {α : Type} : ∀ (l : List α) (i : Nat) (a : α),
    l[i]? = some a → l.set i a = l := by
  intro l
  induction l with
  | nil => intro i a h; simp at h
  | cons x xs ih =>
    intro i a h
    cases i with
    | zero =>
      simp only [List.getElem?_cons_zero, Option.some.injEq] at h
      simp [List.set, h]
    | succ j =>
      simp only [List.getElem?_cons_succ] at h
      simp [List.set, ih j a h]

/-- A fresh variable declaration: the name is defined in the current scope
and no error is recorded. -/
theorem visitSem_varDecl_fresh (st : SemState) (sc : Scope)
    (hcur : st.scopes[st.current]? = some sc) (vt : String) (tok : Token)
    (hfresh : (sc.symbols.find? (fun p => p.1 == tok.value)).isSome = false) :
    visitSem (.varDecl vt (.ident tok) none) st =
      { st with scopes := (st.scopes.set st.current
          ⟨sc.name, sc.parent, sc.symbols ++ [(tok.value, ⟨"variable", []⟩)]⟩) } := by
  simp only [visitSem, defineAt, identStr, hcur, scopeDefine, hfresh]
  simp [visitSemOpt]

/-- A duplicate variable declaration in the identical scope: the state is
unchanged except for exactly one recorded error naming the variable. -/
theorem visitSem_varDecl_dup (st : SemState) (sc : Scope)
    (hcur : st.scopes[st.current]? = some sc) (vt : String) (tok : Token)
    (hdup : (sc.symbols.find? (fun p => p.1 == tok.value)).isSome = true) :
    visitSem (.varDecl vt (.ident tok) none) st =
      { st with errors := st.errors ++
          [⟨"Semantic Error: " ++ ("Variable '" ++ tok.value ++ "' already declared."),
            some tok.line⟩] } := by
  simp only [visitSem, defineAt, identStr, hcur, scopeDefine, hdup]
  simp only [if_true, if_false, Bool.false_eq_true, visitSemOpt, semErr, nodeLine]
  rw [list_set_self st.scopes st.current sc hcur]

/-- C7: declaring a name already present in the identical scope records
exactly one semantic error whose message names that variable; declaring a
fresh name records no error and defines it; and declaring any name directly
after entering a nested scope records zero errors regardless of what the
enclosing scopes declare (shadowing is permitted), because `define` consults
only the current scope's own symbol map. -/
theorem redeclaration_and_shadowing (st : SemState) (sc : Scope)
    (hcur : st.scopes[st.current]? = some sc) (vt : String) (tok : Token) :
    ((sc.symbols.find? (fun p => p.1 == tok.value)).isSome = true →
      visitSem (.varDecl vt (.ident tok) none) st =
        { st with errors := st.errors ++
            [⟨"Semantic Error: " ++ ("Variable '" ++ tok.value ++ "' already declared."),
              some tok.line⟩] }) ∧
    ((sc.symbols.find? (fun p => p.1 == tok.value)).isSome = false →
      visitSem (.varDecl vt (.ident tok) none) st =
        { st with scopes := (st.scopes.set st.current
            ⟨sc.name, sc.parent, sc.symbols ++ [(tok.value, ⟨"variable", []⟩)]⟩) }) ∧
    (∀ nm, (visitSem (.varDecl vt (.ident tok) none) (enterScope st nm)).errors =
      st.errors) := by
  refine ⟨fun hdup => visitSem_varDecl_dup st sc hcur vt tok hdup,
    fun hfresh => visitSem_varDecl_fresh st sc hcur vt tok hfresh, ?_⟩
  intro nm
  have hnew : (enterScope st nm).scopes[(enterScope st nm).current]? =
      some ⟨nm, some st.current, []⟩ := by
    simp [enterScope, List.getElem?_concat_length]
  rw [visitSem_varDecl_fresh (enterScope st nm) ⟨nm, some st.current, []⟩ hnew vt tok
    (by simp)]
  simp [enterScope]

theorem redeclaration_and_shadowing_witness :
    visitSem (.varDecl "int" (.ident ⟨"IDENTIFIER", "printf", 3, 5⟩) none) initSemState =
      { initSemState with errors := initSemState.errors ++
          [⟨"Semantic Error: " ++ ("Variable '" ++ "printf" ++ "' already declared."),
            some 3⟩] } ∧
    (visitSem (.varDecl "int" (.ident ⟨"IDENTIFIER", "printf", 3, 5⟩) none)
      (enterScope initSemState "block")).errors = initSemState.errors :=
  ⟨(redeclaration_and_shadowing initSemState
      ⟨"global", none, [("printf", ⟨"function", []⟩)]⟩ rfl "int"
      ⟨"IDENTIFIER", "printf", 3, 5⟩).1 rfl,
   (redeclaration_and_shadowing initSemState
      ⟨"global", none, [("printf", ⟨"function", []⟩)]⟩ rfl "int"
      ⟨"IDENTIFIER", "printf", 3, 5⟩).2.2 "block"⟩

theorem scopeDefine_found (sc : Scope) (n : String) (s : Sym)
    (hf : (sc.symbols.find? (fun p => p.1 == n)).isSome = true) :
    scopeDefine sc n s = (sc, false) := by
  unfold scopeDefine
  rw [if_pos hf]

theorem scopeDefine_fresh (sc : Scope) (n : String) (s : Sym)
    (hf : (sc.symbols.find? (fun p => p.1 == n)).isSome = false) :
    scopeDefine sc n s = (⟨sc.name, sc.parent, sc.symbols ++ [(n, s)]⟩, true) := by
  unfold scopeDefine
  rw [if_neg (by simp [hf])]

theorem defineAt_some (st : SemState) (i : Nat) (n : String) (s : Sym) (sc : Scope)
    (hc : st.scopes[i]? = some sc) :
    defineAt st i n s =
      ({ st with scopes := st.scopes.set i (scopeDefine sc n s).1 },
        (scopeDefine sc n s).2) := by
  unfold defineAt
  rw [hc]

theorem defineAt_none (st : SemState) (i : Nat) (n : String) (s : Sym)
    (hc : st.scopes[i]? = none) : defineAt st i n s = (st, true) := by
  unfold defineAt
  rw [hc]

/-- Defining a list of parameters keeps every previously present name and
leaves the cursor, the errors and the scope count unchanged. -/
theorem defineParams_current : ∀ (ps : List Node) (st : SemState),
    (defineParams ps st).current = st.current ∧
    (defineParams ps st).errors = st.errors ∧
    (defineParams ps st).scopes.length = st.scopes.length := by
  intro ps
  induction ps with
  | nil => intro st; exact ⟨rfl, rfl, rfl⟩
  | cons p rest ih =>
    intro st
    cases p with
    | param pt pn =>
      have hstep : ∀ (i : Nat) (n : String) (s : Sym),
          (defineAt st i n s).1.current = st.current ∧
          (defineAt st i n s).1.errors = st.errors ∧
          (defineAt st i n s).1.scopes.length = st.scopes.length := by
        intro i n s
        unfold defineAt
        cases h : st.scopes[i]? with
        | none => exact ⟨rfl, rfl, rfl⟩
        | some sc => simp
      obtain ⟨h1, h2, h3⟩ :=
        ih (defineAt st st.current (identStr pn) ⟨pt, []⟩).1
      obtain ⟨g1, g2, g3⟩ := hstep st.current (identStr pn) ⟨pt, []⟩
      simp only [defineParams]
      exact ⟨by rw [h1, g1], by rw [h2, g2], by rw [h3, g3]⟩
    | program cs => exact ih st
    | funcDef rt nm ps2 body => exact ih st
    | block ss => exact ih st
    | varDecl vt vn v => exact ih st
    | assign l r => exact ih st
    | binop l o r => exact ih st
    | num tk => exact ih st
    | ident tk => exact ih st
    | strLit tk => exact ih st
    | call nm args => exact ih st
    | ifStmt c ib eb => exact ih st
    | forLoop ini c inc body => exact ih st
    | ret v => exact ih st

/-- Once a name is present in the scope the cursor points to, it stays
present through further parameter definitions. -/
theorem defineParams_keeps : ∀ (ps : List Node) (st : SemState) (n : String),
    ((st.scopes[st.current]?).bind
      (fun sc => sc.symbols.find? (fun q => q.1 == n))).isSome = true →
    (((defineParams ps st).scopes[(defineParams ps st).current]?).bind
      (fun sc => sc.symbols.find? (fun q => q.1 == n))).isSome = true := by
  intro ps
  induction ps with
  | nil => intro st n h; exact h
  | cons p rest ih =>
    intro st n h
    cases p with
    | param pt pn =>
      simp only [defineParams]
      apply ih
      cases hc : st.scopes[st.current]? with
      | none =>
        rw [defineAt_none st st.current _ _ hc]
        exact h
      | some sc =>
        rw [hc] at h
        simp only [Option.some_bind] at h
        have hlt : st.current < st.scopes.length :=
          (List.getElem?_eq_some_iff.mp hc).1
        have hset : st.scopes.set st.current sc = st.scopes := list_set_self _ _ _ hc
        rw [defineAt_some st st.current (identStr pn) ⟨pt, []⟩ sc hc]
        by_cases hf : (sc.symbols.find? (fun p => p.1 == identStr pn)).isSome = true
        · rw [scopeDefine_found sc _ _ hf]
          simpa [hset, hc] using h
        · rw [scopeDefine_fresh sc _ _ (Bool.eq_false_iff.mpr hf)]
          simp only [List.getElem?_set_self hlt, Option.some_bind, List.find?_append]
          cases hg : sc.symbols.find? (fun q => q.1 == n) with
          | none => rw [hg] at h; simp at h
          | some q => simp [hg]
    | program cs => exact ih st n h
    | funcDef rt nm ps2 body => exact ih st n h
    | block ss => exact ih st n h
    | varDecl vt vn v => exact ih st n h
    | assign l r => exact ih st n h
    | binop l o r => exact ih st n h
    | num tk => exact ih st n h
    | ident tk => exact ih st n h
    | strLit tk => exact ih st n h
    | call nm args => exact ih st n h
    | ifStmt c ib eb => exact ih st n h
    | forLoop ini c inc body => exact ih st n h
    | ret v => exact ih st n h

/-- After `define` through the cursor, the name is present in the cursor's
scope (it was either already there or freshly appended). -/
theorem defineAt_defines (st : SemState) (sc : Scope)
    (hc : st.scopes[st.current]? = some sc) (n : String) (s : Sym) :
    (((defineAt st st.current n s).1.scopes[(defineAt st st.current n s).1.current]?).bind
      (fun sc2 => sc2.symbols.find? (fun q => q.1 == n))).isSome = true := by
  have hlt : st.current < st.scopes.length := (List.getElem?_eq_some_iff.mp hc).1
  rw [defineAt_some st st.current n s sc hc]
  by_cases hf : (sc.symbols.find? (fun p => p.1 == n)).isSome = true
  · rw [scopeDefine_found sc n s hf]
    have hset : st.scopes.set st.current sc = st.scopes := list_set_self _ _ _ hc
    simpa [hset, hc] using hf
  · rw [scopeDefine_fresh sc n s (Bool.eq_false_iff.mpr hf)]
    simp only [List.getElem?_set_self hlt, Option.some_bind, List.find?_append]
    cases hg : sc.symbols.find? (fun q => q.1 == n) with
    | none => simp
    | some q => simp

theorem defineAt_scope_exists (st : SemState) (n : String) (s : Sym)
    (h : ∃ sc, st.scopes[st.current]? = some sc) :
    ∃ sc2, (defineAt st st.current n s).1.scopes[(defineAt st st.current n s).1.current]? =
      some sc2 := by
  obtain ⟨sc, hc⟩ := h
  have hlt : st.current < st.scopes.length := (List.getElem?_eq_some_iff.mp hc).1
  rw [defineAt_some st st.current n s sc hc]
  refine ⟨(scopeDefine sc n s).1, ?_⟩
  simp [List.getElem?_set_self hlt]

/-- Every parameter in the list ends up declared in the cursor's scope. -/
theorem defineParams_mem : ∀ (ps : List Node) (st : SemState) (pt : String) (ptok : Token),
    Node.param pt (.ident ptok) ∈ ps →
    (∃ sc, st.scopes[st.current]? = some sc) →
    (((defineParams ps st).scopes[(defineParams ps st).current]?).bind
      (fun sc => sc.symbols.find? (fun q => q.1 == ptok.value))).isSome = true := by
  intro ps
  induction ps with
  | nil => intro st pt ptok hmem; cases hmem
  | cons p rest ih =>
    intro st pt ptok hmem hex
    obtain ⟨sc, hsc⟩ := hex
    rcases List.mem_cons.mp hmem with heq | hmem2
    · rw [← heq]
      simp only [defineParams, identStr]
      apply defineParams_keeps
      exact defineAt_defines st sc hsc ptok.value ⟨pt, []⟩
    · cases p with
      | param pt2 pn2 =>
        simp only [defineParams]
        exact ih _ pt ptok hmem2
          (defineAt_scope_exists st (identStr pn2) ⟨pt2, []⟩ ⟨sc, hsc⟩)
      | program cs => exact ih st pt ptok hmem2 ⟨sc, hsc⟩
      | funcDef rt nm ps2 body => exact ih st pt ptok hmem2 ⟨sc, hsc⟩
      | block ss => exact ih st pt ptok hmem2 ⟨sc, hsc⟩
      | varDecl vt vn v => exact ih st pt ptok hmem2 ⟨sc, hsc⟩
      | assign l r => exact ih st pt ptok hmem2 ⟨sc, hsc⟩
      | binop l o r => exact ih st pt ptok hmem2 ⟨sc, hsc⟩
      | num tk => exact ih st pt ptok hmem2 ⟨sc, hsc⟩
      | ident tk => exact ih st pt ptok hmem2 ⟨sc, hsc⟩
      | strLit tk => exact ih st pt ptok hmem2 ⟨sc, hsc⟩
      | call nm args => exact ih st pt ptok hmem2 ⟨sc, hsc⟩
      | ifStmt c ib eb => exact ih st pt ptok hmem2 ⟨sc, hsc⟩
      | forLoop ini c inc body => exact ih st pt ptok hmem2 ⟨sc, hsc⟩
      | ret v => exact ih st pt ptok hmem2 ⟨sc, hsc⟩

/-- C5: visiting a FunctionDefinition registers the function name directly
in the GLOBAL scope (arena index 0), not the currently active scope,
whatever the cursor is when the node is visited; if the name already exists
in the global scope, exactly one error `Function '<name>' already defined.`
is recorded and no symbol table changes; otherwise the name is added to the
global scope as a function and no error is recorded; in both cases a new
child scope named after the function, parented on the cursor's scope, is
entered, every parameter is declared in it, and the body is visited there
before the scope is exited. -/
theorem function_registered_in_global (st : SemState) (rt : String) (tok : Token)
    (ps : List Node) (body : Node) (g : Scope) (hg : st.scopes[0]? = some g)
    (A : SemState)
    (hA : A = if (g.symbols.find? (fun p => p.1 == tok.value)).isSome = true
      then semErr st ("Function '" ++ tok.value ++ "' already defined.") (some tok.line)
      else { st with scopes := (st.scopes.set 0
          ⟨g.name, g.parent, g.symbols ++ [(tok.value, ⟨"function", ps⟩)]⟩) }) :
    visitSem (.funcDef rt (.ident tok) ps body) st =
      exitScope (visitSem body (defineParams ps (enterScope A tok.value))) ∧
    ((g.symbols.find? (fun p => p.1 == tok.value)).isSome = true →
      A.errors = st.errors ++
        [⟨"Semantic Error: " ++ ("Function '" ++ tok.value ++ "' already defined."),
          some tok.line⟩] ∧ A.scopes = st.scopes) ∧
    ((g.symbols.find? (fun p => p.1 == tok.value)).isSome = false →
      A.errors = st.errors ∧
      A.scopes[0]? =
        some ⟨g.name, g.parent, g.symbols ++ [(tok.value, ⟨"function", ps⟩)]⟩) ∧
    (∀ i, i ≠ 0 → A.scopes[i]? = st.scopes[i]?) ∧
    A.current = st.current ∧
    (enterScope A tok.value).scopes[(enterScope A tok.value).current]? =
      some ⟨tok.value, some st.current, []⟩ ∧
    (∀ pt ptok, Node.param pt (.ident ptok) ∈ ps →
      (((defineParams ps (enterScope A tok.value)).scopes[
          (defineParams ps (enterScope A tok.value)).current]?).bind
        (fun sc => sc.symbols.find? (fun q => q.1 == ptok.value))).isSome = true) := by
  have hlt0 : 0 < st.scopes.length := (List.getElem?_eq_some_iff.mp hg).1
  have hset0 : st.scopes.set 0 g = st.scopes := list_set_self _ _ _ hg
  have hAcur : A.current = st.current := by
    rw [hA]
    by_cases hdup : (g.symbols.find? (fun p => p.1 == tok.value)).isSome = true
    · rw [if_pos hdup]; rfl
    · rw [if_neg hdup]
  refine ⟨?_, ?_, ?_, ?_, hAcur, ?_, ?_⟩
  · simp only [visitSem, identStr, nodeLine]
    rw [defineAt_some st 0 tok.value ⟨"function", ps⟩ g hg]
    by_cases hdup : (g.symbols.find? (fun p => p.1 == tok.value)).isSome = true
    · rw [scopeDefine_found g tok.value ⟨"function", ps⟩ hdup]
      rw [hA, if_pos hdup]
      simp only [hset0]
      rfl
    · rw [scopeDefine_fresh g tok.value ⟨"function", ps⟩ (Bool.eq_false_iff.mpr hdup)]
      rw [hA, if_neg hdup]
      exact rfl
  · intro hdup
    rw [hA, if_pos hdup]
    exact ⟨rfl, rfl⟩
  · intro hfresh
    rw [hA, if_neg (by simp [hfresh])]
    exact ⟨rfl, by simp [List.getElem?_set_self hlt0]⟩
  · intro i hi
    rw [hA]
    by_cases hdup : (g.symbols.find? (fun p => p.1 == tok.value)).isSome = true
    · rw [if_pos hdup]; rfl
    · rw [if_neg hdup]
      simp [List.getElem?_set_ne (Ne.symm hi)]
  · rw [show (enterScope A tok.value).scopes =
      A.scopes ++ [⟨tok.value, some A.current, []⟩] from rfl]
    rw [show (enterScope A tok.value).current = A.scopes.length from rfl]
    rw [List.getElem?_concat_length, hAcur]
  · intro pt ptok hmem
    apply defineParams_mem ps (enterScope A tok.value) pt ptok hmem
    refine ⟨⟨tok.value, some A.current, []⟩, ?_⟩
    rw [show (enterScope A tok.value).scopes =
      A.scopes ++ [⟨tok.value, some A.current, []⟩] from rfl]
    rw [show (enterScope A tok.value).current = A.scopes.length from rfl]
    exact List.getElem?_concat_length _ _

def fgrTok : Token := ⟨"IDENTIFIER", "main", 1, 5⟩

def fgrPTok : Token := ⟨"IDENTIFIER", "x", 1, 10⟩

def fgrPs : List Node := [.param "int" (.ident fgrPTok)]

def fgrBody : Node := .block []

def fgrG : Scope := ⟨"global", none, [("printf", ⟨"function", []⟩)]⟩

def fgrA : SemState :=
  { initSemState with scopes := (initSemState.scopes.set 0
      ⟨fgrG.name, fgrG.parent, fgrG.symbols ++ [(fgrTok.value, ⟨"function", fgrPs⟩)]⟩) }

theorem function_registered_in_global_witness :
    initSemState.scopes[0]? = some fgrG ∧
    (fgrA = if (fgrG.symbols.find? (fun p => p.1 == fgrTok.value)).isSome = true
      then semErr initSemState ("Function '" ++ fgrTok.value ++ "' already defined.")
        (some fgrTok.line)
      else { initSemState with scopes := (initSemState.scopes.set 0
          ⟨fgrG.name, fgrG.parent, fgrG.symbols ++ [(fgrTok.value, ⟨"function", fgrPs⟩)]⟩) }) ∧
    (visitSem (.funcDef "int" (.ident fgrTok) fgrPs fgrBody) initSemState =
      exitScope (visitSem fgrBody (defineParams fgrPs (enterScope fgrA fgrTok.value))) ∧
    ((fgrG.symbols.find? (fun p => p.1 == fgrTok.value)).isSome = true →
      fgrA.errors = initSemState.errors ++
        [⟨"Semantic Error: " ++ ("Function '" ++ fgrTok.value ++ "' already defined."),
          some fgrTok.line⟩] ∧ fgrA.scopes = initSemState.scopes) ∧
    ((fgrG.symbols.find? (fun p => p.1 == fgrTok.value)).isSome = false →
      fgrA.errors = initSemState.errors ∧
      fgrA.scopes[0]? =
        some ⟨fgrG.name, fgrG.parent, fgrG.symbols ++ [(fgrTok.value, ⟨"function", fgrPs⟩)]⟩) ∧
    (∀ i, i ≠ 0 → fgrA.scopes[i]? = initSemState.scopes[i]?) ∧
    fgrA.current = initSemState.current ∧
    (enterScope fgrA fgrTok.value).scopes[(enterScope fgrA fgrTok.value).current]? =
      some ⟨fgrTok.value, some initSemState.current, []⟩ ∧
    (∀ pt ptok, Node.param pt (.ident ptok) ∈ fgrPs →
      (((defineParams fgrPs (enterScope fgrA fgrTok.value)).scopes[
          (defineParams fgrPs (enterScope fgrA fgrTok.value)).current]?).bind
        (fun sc => sc.symbols.find? (fun q => q.1 == ptok.value))).isSome = true)) :=
  ⟨rfl, rfl,
    function_registered_in_global initSemState "int" fgrTok fgrPs fgrBody fgrG rfl fgrA rfl⟩

/-- Membership of scope index `t` on the parent chain starting at `i`
(the walk `SymbolTable.lookup` performs, `i` itself included). -/
def onChain (scopes : List Scope) : Nat → Nat → Nat → Bool
  | 0, _, _ => false
  | fuel + 1, i, t =>
    if i = t then true
    else match scopes[i]? with
      | none => false
      | some sc =>
        match sc.parent with
        | some p => onChain scopes fuel p t
        | none => false

/-- Arena invariant: every parent index is strictly below its child's index
(scopes are appended after their parent by `enterScope`). -/
def parentsDecreasing (scopes : List Scope) : Bool :=
  (List.range scopes.length).all (fun i =>
    match scopes[i]? with
    | none => true
    | some sc =>
      match sc.parent with
      | none => true
      | some p => p < i)

/-- The name `n` occurs in no scope of the arena other than index `s`. -/
def declaredOnlyAt (scopes : List Scope) (s : Nat) (n : String) : Bool :=
  (List.range scopes.length).all (fun j =>
    if j = s then true
    else match scopes[j]? with
      | none => true
      | some sc => (sc.symbols.find? (fun p => p.1 == n)).isNone)

theorem parentsDecreasing_spec (scopes : List Scope)
    (h : parentsDecreasing scopes = true) :
    ∀ (i : Nat) (sc : Scope) (p : Nat),
      scopes[i]? = some sc → sc.parent = some p → p < i := by
  intro i sc p hi hp
  rw [parentsDecreasing, List.all_eq_true] at h
  have hlen : i < scopes.length := (List.getElem?_eq_some_iff.mp hi).1
  have h2 := h i (List.mem_range.mpr hlen)
  simpa [hi, hp] using h2

theorem declaredOnlyAt_spec (scopes : List Scope) (s : Nat) (n : String)
    (h : declaredOnlyAt scopes s n = true) :
    ∀ (j : Nat) (sc : Scope), j ≠ s → scopes[j]? = some sc →
      sc.symbols.find? (fun p => p.1 == n) = none := by
  intro j sc hj hjs
  rw [declaredOnlyAt, List.all_eq_true] at h
  have hlen : j < scopes.length := (List.getElem?_eq_some_iff.mp hjs).1
  have h2 := h j (List.mem_range.mpr hlen)
  simp only [if_neg hj, hjs] at h2
  exact Option.isNone_iff_eq_none.mp h2

theorem onChain_le (scopes : List Scope)
    (hdec : ∀ (i : Nat) (sc : Scope) (p : Nat),
      scopes[i]? = some sc → sc.parent = some p → p < i) :
    ∀ (fuel i t : Nat), onChain scopes fuel i t = true → t ≤ i := by
  intro fuel
  induction fuel with
  | zero => intro i t h; exact absurd h (by simp [onChain])
  | succ f ih =>
    intro i t h
    simp only [onChain] at h
    by_cases he : i = t
    · exact le_of_eq he.symm
    · rw [if_neg he] at h
      cases hi : scopes[i]? with
      | none => simp only [hi] at h; exact Bool.noConfusion h
      | some sc =>
        simp only [hi] at h
        cases hp : sc.parent with
        | none => simp only [hp] at h; exact Bool.noConfusion h
        | some p =>
          simp only [hp] at h
          have h1 := ih p t h
          have h2 := hdec i sc p hi hp
          omega

theorem lookup_of_onChain (scopes : List Scope) (n : String) (s : Nat) (sc : Scope)
    (hs : scopes[s]? = some sc)
    (hmem : (sc.symbols.find? (fun p => p.1 == n)).isSome = true)
    (honly : ∀ (j : Nat) (sc2 : Scope), j ≠ s → scopes[j]? = some sc2 →
      sc2.symbols.find? (fun p => p.1 == n) = none) :
    ∀ (fuel d : Nat), onChain scopes fuel d s = true →
      (lookupChain scopes fuel d n).isSome = true := by
  intro fuel
  induction fuel with
  | zero => intro d h; exact absurd h (by simp [onChain])
  | succ f ih =>
    intro d h
    simp only [onChain] at h
    by_cases hd : d = s
    · subst hd
      simp only [lookupChain, hs]
      cases hp : sc.symbols.find? (fun p => p.1 == n) with
      | none => rw [hp] at hmem; exact absurd hmem (by simp)
      | some p => simp only [hp, Option.isSome_some]
    · rw [if_neg hd] at h
      cases hi : scopes[d]? with
      | none => simp only [hi] at h; exact Bool.noConfusion h
      | some sc2 =>
        simp only [hi] at h
        cases hp : sc2.parent with
        | none => simp only [hp] at h; exact Bool.noConfusion h
        | some p =>
          simp only [hp] at h
          simp only [lookupChain, hi, honly d sc2 hd hi, hp]
          exact ih p h

theorem lookup_none_of_offChain (scopes : List Scope) (n : String) (s : Nat)
    (honly : ∀ (j : Nat) (sc2 : Scope), j ≠ s → scopes[j]? = some sc2 →
      sc2.symbols.find? (fun p => p.1 == n) = none) :
    ∀ (fuel a : Nat), onChain scopes fuel a s = false →
      lookupChain scopes fuel a n = none := by
  intro fuel
  induction fuel with
  | zero => intro a _; rfl
  | succ f ih =>
    intro a h
    simp only [onChain] at h
    by_cases ha : a = s
    · rw [if_pos ha] at h; exact absurd h (by simp)
    · rw [if_neg ha] at h
      cases hi : scopes[a]? with
      | none => simp only [lookupChain, hi]
      | some sc2 =>
        simp only [hi] at h
        simp only [lookupChain, hi, honly a sc2 ha hi]
        cases hp : sc2.parent with
        | none => simp only
        | some p =>
          simp only [hp] at h
          simp only [hp]
          exact ih p h

/-- C8: an identifier declared only in scope `S` (arena index `s`) resolves
from `S` and from every descendant of `S` (every scope whose parent chain
passes through `s`), and does not resolve from any scope whose chain avoids
`s` — in particular not from any ancestor of `S` nor from any sibling of
`S`; accordingly `visitIdentifierNode` records no error when the cursor sits
on the chain through `s` and records exactly the `Undeclared variable`
error when it does not. -/
theorem scoping_isolation (scopes : List Scope) (n : String) (s : Nat) (sc : Scope)
    (hdec : parentsDecreasing scopes = true)
    (hs : scopes[s]? = some sc)
    (hmem : (sc.symbols.find? (fun p => p.1 == n)).isSome = true)
    (honly : declaredOnlyAt scopes s n = true) :
    (∀ (fuel d : Nat), onChain scopes fuel d s = true →
      (lookupChain scopes fuel d n).isSome = true) ∧
    (∀ (fuel a : Nat), onChain scopes fuel a s = false →
      lookupChain scopes fuel a n = none) ∧
    (∀ (fuel fuel2 a : Nat), onChain scopes fuel s a = true → a ≠ s →
      lookupChain scopes fuel2 a n = none) ∧
    (∀ (fuel b : Nat) (sb : Scope), b ≠ s → scopes[b]? = some sb →
      sb.parent = sc.parent → lookupChain scopes fuel b n = none) ∧
    (∀ (st : SemState) (t : Token), st.scopes = scopes → t.value = n →
      onChain scopes (st.current + 1) st.current s = true →
      visitSem (.ident t) st = st) ∧
    (∀ (st : SemState) (t : Token), st.scopes = scopes → t.value = n →
      onChain scopes (st.current + 1) st.current s = false →
      visitSem (.ident t) st =
        semErr st ("Undeclared variable '" ++ t.value ++ "'.") (some t.line)) := by
  have hdec2 := parentsDecreasing_spec scopes hdec
  have honly2 := declaredOnlyAt_spec scopes s n honly
  have hres := lookup_of_onChain scopes n s sc hs hmem honly2
  have hnone := lookup_none_of_offChain scopes n s honly2
  refine ⟨hres, hnone, ?_, ?_, ?_, ?_⟩
  · intro fuel fuel2 a hanc hne
    have hle : a ≤ s := onChain_le scopes hdec2 fuel s a hanc
    have hlt : a < s := lt_of_le_of_ne hle hne
    apply hnone
    cases hoc : onChain scopes fuel2 a s with
    | false => rfl
    | true =>
      have := onChain_le scopes hdec2 fuel2 a s hoc
      omega
  · intro fuel b sb hb hbs hpar
    apply hnone
    cases fuel with
    | zero => rfl
    | succ f =>
      simp only [onChain, if_neg hb, hbs]
      cases hp : sb.parent with
      | none => simp only
      | some par =>
        have hps : sc.parent = some par := by rw [← hpar, hp]
        have hlt : par < s := hdec2 s sc par hs hps
        cases hoc : onChain scopes f par s with
        | false => simp only [hoc]
        | true =>
          have := onChain_le scopes hdec2 f par s hoc
          omega
  · intro st t hsc htv hchain
    have hls : (lookupFrom st st.current t.value).isSome = true := by
      rw [lookupFrom, hsc, htv]
      exact hres (st.current + 1) st.current hchain
    simp only [visitSem]
    rw [if_pos hls]
  · intro st t hsc htv hchain
    have hln : lookupFrom st st.current t.value = none := by
      rw [lookupFrom, hsc, htv]
      exact hnone (st.current + 1) st.current hchain
    simp only [visitSem]
    rw [if_neg (by simp [hln])]

def isoScopes : List Scope :=
  [⟨"global", none, []⟩,
   ⟨"S", some 0, [("x", ⟨"variable", []⟩)]⟩,
   ⟨"child", some 1, []⟩,
   ⟨"sib", some 0, []⟩]

def isoS : Scope := ⟨"S", some 0, [("x", ⟨"variable", []⟩)]⟩

theorem scoping_isolation_witness :
    parentsDecreasing isoScopes = true ∧
    isoScopes[1]? = some isoS ∧
    (isoS.symbols.find? (fun p => p.1 == "x")).isSome = true ∧
    declaredOnlyAt isoScopes 1 "x" = true ∧
    ((∀ (fuel d : Nat), onChain isoScopes fuel d 1 = true →
      (lookupChain isoScopes fuel d "x").isSome = true) ∧
    (∀ (fuel a : Nat), onChain isoScopes fuel a 1 = false →
      lookupChain isoScopes fuel a "x" = none) ∧
    (∀ (fuel fuel2 a : Nat), onChain isoScopes fuel 1 a = true → a ≠ 1 →
      lookupChain isoScopes fuel2 a "x" = none) ∧
    (∀ (fuel b : Nat) (sb : Scope), b ≠ 1 → isoScopes[b]? = some sb →
      sb.parent = isoS.parent → lookupChain isoScopes fuel b "x" = none) ∧
    (∀ (st : SemState) (t : Token), st.scopes = isoScopes → t.value = "x" →
      onChain isoScopes (st.current + 1) st.current 1 = true →
      visitSem (.ident t) st = st) ∧
    (∀ (st : SemState) (t : Token), st.scopes = isoScopes → t.value = "x" →
      onChain isoScopes (st.current + 1) st.current 1 = false →
      visitSem (.ident t) st =
        semErr st ("Undeclared variable '" ++ t.value ++ "'.") (some t.line))) :=
  ⟨by decide, rfl, by decide, by decide,
    scoping_isolation isoScopes "x" 1 isoS (by decide) rfl (by decide) (by decide)⟩

/-- What every semantic visit preserves of the state it was given: the
cursor, the arena length (monotonically), and each existing scope's
identity (name and parent; only symbol maps may grow). -/
def semPres (st st2 : SemState) : Prop :=
  st2.current = st.current ∧
  st.scopes.length ≤ st2.scopes.length ∧
  ∀ (i : Nat) (sc : Scope), st.scopes[i]? = some sc →
    ∃ sc2, st2.scopes[i]? = some sc2 ∧ sc2.name = sc.name ∧ sc2.parent = sc.parent

theorem semPres_refl (st : SemState) : semPres st st :=
  ⟨rfl, le_refl _, fun _ sc h => ⟨sc, h, rfl, rfl⟩⟩

theorem semPres_trans {a b c : SemState} (h1 : semPres a b) (h2 : semPres b c) :
    semPres a c := by
  obtain ⟨hc1, hl1, hp1⟩ := h1
  obtain ⟨hc2, hl2, hp2⟩ := h2
  refine ⟨hc2.trans hc1, hl1.trans hl2, ?_⟩
  intro i sc h
  obtain ⟨sc1, h1, hn1, hpp1⟩ := hp1 i sc h
  obtain ⟨sc2, h2, hn2, hpp2⟩ := hp2 i sc1 h1
  exact ⟨sc2, h2, hn2.trans hn1, hpp2.trans hpp1⟩

theorem semPres_semErr (st : SemState) (msg : String) (line : Option Nat) :
    semPres st (semErr st msg line) :=
  ⟨rfl, le_refl _, fun _ sc h => ⟨sc, h, rfl, rfl⟩⟩

theorem scopeDefine_frame (sc : Scope) (n : String) (s : Sym) :
    (scopeDefine sc n s).1.name = sc.name ∧ (scopeDefine sc n s).1.parent = sc.parent := by
  by_cases hf : (sc.symbols.find? (fun p => p.1 == n)).isSome = true
  · rw [scopeDefine_found sc n s hf]
    exact ⟨rfl, rfl⟩
  · rw [scopeDefine_fresh sc n s (Bool.eq_false_iff.mpr hf)]
    exact ⟨rfl, rfl⟩

theorem semPres_defineAt (st : SemState) (i : Nat) (n : String) (s : Sym) :
    semPres st (defineAt st i n s).1 := by
  cases hc : st.scopes[i]? with
  | none => rw [defineAt_none st i n s hc]; exact semPres_refl st
  | some sc =>
    rw [defineAt_some st i n s sc hc]
    have hlt : i < st.scopes.length := (List.getElem?_eq_some_iff.mp hc).1
    refine ⟨rfl, by simp, ?_⟩
    intro j sc2 hj
    by_cases hij : j = i
    · subst hij
      refine ⟨(scopeDefine sc n s).1, by simp [List.getElem?_set_self hlt], ?_, ?_⟩
      · rw [hj] at hc
        rw [(scopeDefine_frame sc n s).1, Option.some_inj.mp hc]
      · rw [hj] at hc
        rw [(scopeDefine_frame sc n s).2, Option.some_inj.mp hc]
    · exact ⟨sc2, by rw [List.getElem?_set_ne (fun h => hij h.symm)]; exact hj, rfl, rfl⟩

theorem semPres_defineParams : ∀ (ps : List Node) (st : SemState),
    semPres st (defineParams ps st) := by
  intro ps
  induction ps with
  | nil => intro st; exact semPres_refl st
  | cons p rest ih =>
    intro st
    cases p with
    | param pt pn =>
      simp only [defineParams]
      exact semPres_trans (semPres_defineAt st st.current (identStr pn) ⟨pt, []⟩) (ih _)
    | program cs => exact ih st
    | funcDef rt nm ps2 body => exact ih st
    | block ss => exact ih st
    | varDecl vt vn v => exact ih st
    | assign l r => exact ih st
    | binop l o r => exact ih st
    | num tk => exact ih st
    | ident tk => exact ih st
    | strLit tk => exact ih st
    | call nm args => exact ih st
    | ifStmt c ib eb => exact ih st
    | forLoop ini c inc body => exact ih st
    | ret v => exact ih st

/-- An enter/exit bracket around a body that itself preserves the state
brings the cursor back where it started. -/
theorem semPres_enter_exit (st A stB : SemState) (nm : String)
    (h1 : semPres st A) (h2 : semPres (enterScope A nm) stB) :
    semPres st (exitScope stB) := by
  obtain ⟨hc1, hl1, hp1⟩ := h1
  obtain ⟨hc2, hl2, hp2⟩ := h2
  have hnew : (enterScope A nm).scopes[A.scopes.length]? =
      some ⟨nm, some A.current, []⟩ := by
    show (A.scopes ++ [(⟨nm, some A.current, []⟩ : Scope)])[A.scopes.length]? = _
    exact List.getElem?_concat_length _ _
  obtain ⟨sc', hsc', hname', hpar'⟩ := hp2 A.scopes.length ⟨nm, some A.current, []⟩ hnew
  refine ⟨?_, ?_, ?_⟩
  · show ((stB.scopes[stB.current]?).bind (fun sc => sc.parent)).getD 0 = st.current
    rw [hc2]
    rw [show (enterScope A nm).current = A.scopes.length from rfl]
    rw [hsc']
    simp only [Option.some_bind]
    rw [hpar']
    simp [hc1]
  · calc st.scopes.length ≤ A.scopes.length := hl1
      _ ≤ A.scopes.length + 1 := Nat.le_succ _
      _ = (enterScope A nm).scopes.length := by
          show _ = (A.scopes ++ [(⟨nm, some A.current, []⟩ : Scope)]).length
          simp
      _ ≤ stB.scopes.length := hl2
  · intro i sc hi
    obtain ⟨scA, hA1, hA2, hA3⟩ := hp1 i sc hi
    have hiA : i < A.scopes.length := (List.getElem?_eq_some_iff.mp hA1).1
    have hE : (enterScope A nm).scopes[i]? = some scA := by
      show (A.scopes ++ [(⟨nm, some A.current, []⟩ : Scope)])[i]? = _
      rw [List.getElem?_append_left hiA]
      exact hA1
    obtain ⟨scB, hB1, hB2, hB3⟩ := hp2 i scA hE
    exact ⟨scB, hB1, hB2.trans hA2, hB3.trans hA3⟩

theorem visitSem_pres_all : ∀ k : Nat,
    (∀ (node : Node) (st : SemState), sizeOf node ≤ k → semPres st (visitSem node st)) ∧
    (∀ (cs : List Node) (st : SemState), sizeOf cs ≤ k → semPres st (visitSemList cs st)) ∧
    (∀ (o : Option Node) (st : SemState), sizeOf o ≤ k → semPres st (visitSemOpt o st)) ∧
    (∀ (os : List (Option Node)) (st : SemState), sizeOf os ≤ k →
      semPres st (visitSemOptList os st)) := by
  intro k
  induction k with
  | zero =>
    refine ⟨fun node st h => absurd h (by have := node_sizeOf_pos node; omega),
      fun cs st h => absurd h (by cases cs <;> simp_arith),
      fun o st h => absurd h (by cases o <;> simp_arith),
      fun os st h => absurd h (by cases os <;> simp_arith)⟩
  | succ k ih =>
    obtain ⟨ihN, ihL, ihO, ihOL⟩ := ih
    refine ⟨?_, ?_, ?_, ?_⟩
    · intro node st h
      cases node with
      | program cs =>
        simpa [visitSem] using ihL cs st (by simp_arith at h; omega)
      | funcDef rt nm ps body =>
        rcases hd : defineAt st 0 (identStr nm) ⟨"function", ps⟩ with ⟨st1, ok⟩
        simp only [visitSem, hd]
        have hA : semPres st (if ok then st1
            else semErr st1 ("Function '" ++ identStr nm ++ "' already defined.")
              (nodeLine nm)) := by
          have h1 : semPres st st1 := by
            have := semPres_defineAt st 0 (identStr nm) ⟨"function", ps⟩
            rwa [hd] at this
          cases ok with
          | true => simpa using h1
          | false =>
            simp only [Bool.false_eq_true, if_false]
            exact semPres_trans h1 (semPres_semErr st1 _ _)
        refine semPres_enter_exit st _ _ (identStr nm) hA ?_
        exact semPres_trans (semPres_defineParams ps _)
          (ihN body _ (by simp_arith at h; omega))
      | param pt pn => simp only [visitSem]; exact semPres_refl st
      | block ss =>
        simp only [visitSem]
        refine semPres_enter_exit st st _ "block" (semPres_refl st) ?_
        exact ihL ss _ (by simp_arith at h; omega)
      | varDecl vt vn val =>
        rcases hd : defineAt st st.current (identStr vn) ⟨"variable", []⟩ with ⟨st1, ok⟩
        simp only [visitSem, hd]
        have h1 : semPres st st1 := by
          have := semPres_defineAt st st.current (identStr vn) ⟨"variable", []⟩
          rwa [hd] at this
        have hA : semPres st (if ok then st1
            else semErr st1 ("Variable '" ++ identStr vn ++ "' already declared.")
              (nodeLine vn)) := by
          cases ok with
          | true => simpa using h1
          | false =>
            simp only [Bool.false_eq_true, if_false]
            exact semPres_trans h1 (semPres_semErr st1 _ _)
        exact semPres_trans hA (ihO val _ (by simp_arith at h; omega))
      | assign l r =>
        simp only [visitSem]
        exact semPres_trans (ihN l st (by simp_arith at h; omega))
          (ihO r _ (by simp_arith at h; omega))
      | binop l op r =>
        simp only [visitSem]
        exact semPres_trans (ihO l st (by simp_arith at h; omega))
          (ihO r _ (by simp_arith at h; omega))
      | num tk => simp only [visitSem]; exact semPres_refl st
      | ident tk =>
        simp only [visitSem]
        by_cases hl : (lookupFrom st st.current tk.value).isSome = true
        · rw [if_pos hl]; exact semPres_refl st
        · rw [if_neg hl]; exact semPres_semErr st _ _
      | strLit tk => simp only [visitSem]; exact semPres_refl st
      | call nm args =>
        simp only [visitSem]
        have hB : semPres st (match lookupFrom st st.current (identStr nm) with
            | none => semErr st ("Function '" ++ identStr nm ++ "' not defined.")
                (nodeLine nm)
            | some f =>
              if f.type != "function" then
                semErr st ("'" ++ identStr nm ++ "' is not a function.") (nodeLine nm)
              else st) := by
          cases lookupFrom st st.current (identStr nm) with
          | none => exact semPres_semErr st _ _
          | some f =>
            by_cases hf : f.type != "function"
            · simp only [hf, if_true]
              exact semPres_semErr st _ _
            · simp only [hf, if_false]
              exact semPres_refl st
        refine semPres_trans hB (semPres_trans
          (ihN nm _ (by simp_arith at h; omega))
          (ihOL args _ (by simp_arith at h; omega)))
      | ifStmt c ib eb =>
        simp only [visitSem]
        exact semPres_trans (ihO c st (by simp_arith at h; omega))
          (semPres_trans (ihN ib _ (by simp_arith at h; omega))
            (ihO eb _ (by simp_arith at h; omega)))
      | forLoop ini c inc body =>
        simp only [visitSem]
        refine semPres_enter_exit st st _ "for-loop" (semPres_refl st) ?_
        refine semPres_trans (ihO ini _ (by simp_arith at h; omega))
          (semPres_trans (ihO c _ (by simp_arith at h; omega))
            (semPres_trans (ihO inc _ (by simp_arith at h; omega))
              (ihN body _ (by simp_arith at h; omega))))
      | ret v =>
        simp only [visitSem]
        exact ihO v st (by simp_arith at h; omega)
    · intro cs st h
      cases cs with
      | nil => simp only [visitSemList]; exact semPres_refl st
      | cons n rest =>
        simp only [visitSemList]
        exact semPres_trans (ihN n st (by simp_arith at h; omega))
          (ihL rest _ (by simp_arith at h; omega))
    · intro o st h
      cases o with
      | none => simp only [visitSemOpt]; exact semPres_refl st
      | some n =>
        simp only [visitSemOpt]
        exact ihN n st (by simp_arith at h; omega)
    · intro os st h
      cases os with
      | nil => simp only [visitSemOptList]; exact semPres_refl st
      | cons o rest =>
        simp only [visitSemOptList]
        exact semPres_trans (ihO o st (by simp_arith at h; omega))
          (ihOL rest _ (by simp_arith at h; omega))

theorem visitSem_pres (node : Node) (st : SemState) : semPres st (visitSem node st) :=
  (visitSem_pres_all (sizeOf node)).1 node st (le_refl _)

/-- The arena invariant `analyze` maintains: the cursor is in range, parent
indices decrease, and every scope's parent chain reaches the global scope
at index 0 (within `i + 1` steps from index `i`). -/
def goodArena (st : SemState) : Bool :=
  decide (st.current < st.scopes.length) &&
  parentsDecreasing st.scopes &&
  (List.range st.scopes.length).all (fun i => onChain st.scopes (i + 1) i 0)

theorem onChain_mono (scopes : List Scope) :
    ∀ (fuel2 fuel i t : Nat), fuel ≤ fuel2 → onChain scopes fuel i t = true →
      onChain scopes fuel2 i t = true := by
  intro fuel2
  induction fuel2 with
  | zero =>
    intro fuel i t hle h
    have : fuel = 0 := Nat.le_zero.mp hle
    subst this
    exact absurd h (by simp [onChain])
  | succ f2 ih =>
    intro fuel i t hle h
    cases fuel with
    | zero => exact absurd h (by simp [onChain])
    | succ f =>
      simp only [onChain] at h ⊢
      by_cases he : i = t
      · rw [if_pos he]
      · rw [if_neg he] at h ⊢
        cases hi : scopes[i]? with
        | none => simp only [hi] at h; exact Bool.noConfusion h
        | some sc =>
          simp only [hi] at h ⊢
          cases hp : sc.parent with
          | none => simp only [hp] at h; exact Bool.noConfusion h
          | some p =>
            simp only [hp] at h ⊢
            exact ih f p t (Nat.succ_le_succ_iff.mp hle) h

theorem onChain_extend (scopes : List Scope) (a : Scope) :
    ∀ (fuel i t : Nat), onChain scopes fuel i t = true →
      onChain (scopes ++ [a]) fuel i t = true := by
  intro fuel
  induction fuel with
  | zero => intro i t h; exact absurd h (by simp [onChain])
  | succ f ih =>
    intro i t h
    simp only [onChain] at h ⊢
    by_cases he : i = t
    · rw [if_pos he]
    · rw [if_neg he] at h ⊢
      cases hi : scopes[i]? with
      | none => simp only [hi] at h; exact Bool.noConfusion h
      | some sc =>
        simp only [hi] at h
        have hlt : i < scopes.length := (List.getElem?_eq_some_iff.mp hi).1
        rw [List.getElem?_append_left hlt, hi]
        cases hp : sc.parent with
        | none => simp only [hp] at h; exact Bool.noConfusion h
        | some p =>
          simp only [hp] at h ⊢
          exact ih p t h

theorem onChain_mapped (scopes scopes2 : List Scope)
    (hpar : ∀ (j : Nat) (sc : Scope), scopes[j]? = some sc →
      ∃ sc2, scopes2[j]? = some sc2 ∧ sc2.parent = sc.parent) :
    ∀ (fuel j t : Nat), onChain scopes fuel j t = true →
      onChain scopes2 fuel j t = true := by
  intro fuel
  induction fuel with
  | zero => intro j t h; exact absurd h (by simp [onChain])
  | succ f ih =>
    intro j t h
    simp only [onChain] at h ⊢
    by_cases he : j = t
    · rw [if_pos he]
    · rw [if_neg he] at h ⊢
      cases hj : scopes[j]? with
      | none => simp only [hj] at h; exact Bool.noConfusion h
      | some sc =>
        simp only [hj] at h
        obtain ⟨sc2, h2, hp2⟩ := hpar j sc hj
        simp only [h2]
        cases hp : sc.parent with
        | none => simp only [hp] at h; exact Bool.noConfusion h
        | some p =>
          simp only [hp] at h
          simp only [hp2, hp]
          exact ih p t h

theorem parentsDecreasing_of_mapped (scopes scopes2 : List Scope)
    (hpar : ∀ (j : Nat) (sc2 : Scope), scopes2[j]? = some sc2 →
      ∃ sc, scopes[j]? = some sc ∧ sc.parent = sc2.parent)
    (h : parentsDecreasing scopes = true) : parentsDecreasing scopes2 = true := by
  rw [parentsDecreasing, List.all_eq_true]
  intro j _
  cases h2 : scopes2[j]? with
  | none => simp [h2]
  | some sc2 =>
    obtain ⟨sc, h1, hp⟩ := hpar j sc2 h2
    cases hpp : sc2.parent with
    | none => simp [h2, hpp]
    | some p =>
      have hlt := parentsDecreasing_spec scopes h j sc p h1 (by rw [hp, hpp])
      simp only [h2, hpp]
      exact decide_eq_true hlt

theorem reachAll_of_mapped (scopes scopes2 : List Scope)
    (hlen : scopes2.length = scopes.length)
    (hpar : ∀ (j : Nat) (sc : Scope), scopes[j]? = some sc →
      ∃ sc2, scopes2[j]? = some sc2 ∧ sc2.parent = sc.parent)
    (h : (List.range scopes.length).all (fun i => onChain scopes (i + 1) i 0) = true) :
    (List.range scopes2.length).all (fun i => onChain scopes2 (i + 1) i 0) = true := by
  rw [List.all_eq_true]
  intro j hj
  rw [hlen] at hj
  rw [List.all_eq_true] at h
  exact onChain_mapped scopes scopes2 hpar (j + 1) j 0 (h j hj)

theorem goodArena_semErr (st : SemState) (msg : String) (line : Option Nat) :
    goodArena (semErr st msg line) = goodArena st := rfl

theorem goodArena_exitScope (st : SemState) (h : goodArena st = true) :
    goodArena (exitScope st) = true := by
  simp only [goodArena, Bool.and_eq_true, decide_eq_true_eq] at h ⊢
  obtain ⟨⟨hcur, hdec⟩, hall⟩ := h
  refine ⟨⟨?_, hdec⟩, hall⟩
  show ((st.scopes[st.current]?).bind (fun sc => sc.parent)).getD 0 < st.scopes.length
  cases hc : st.scopes[st.current]? with
  | none =>
    rw [List.getElem?_eq_none_iff] at hc
    omega
  | some sc =>
    cases hp : sc.parent with
    | none => simp only [Option.some_bind, hp, Option.getD_none]; omega
    | some p =>
      have := parentsDecreasing_spec st.scopes hdec st.current sc p hc hp
      simp only [Option.some_bind, hp, Option.getD_some]
      omega

theorem goodArena_enterScope (st : SemState) (nm : String) (h : goodArena st = true) :
    goodArena (enterScope st nm) = true := by
  simp only [goodArena, Bool.and_eq_true, decide_eq_true_eq] at h ⊢
  obtain ⟨⟨hcur, hdec⟩, hall⟩ := h
  have hlenE : (enterScope st nm).scopes.length = st.scopes.length + 1 := by
    show (st.scopes ++ [(⟨nm, some st.current, []⟩ : Scope)]).length = _
    simp
  refine ⟨⟨?_, ?_⟩, ?_⟩
  · show st.scopes.length < (enterScope st nm).scopes.length
    omega
  · rw [parentsDecreasing, List.all_eq_true]
    intro j _
    show (match (enterScope st nm).scopes[j]? with
      | none => true
      | some sc => match sc.parent with
        | none => true
        | some p => decide (p < j)) = true
    by_cases hj : j < st.scopes.length
    · have hsame : (enterScope st nm).scopes[j]? = st.scopes[j]? := by
        show (st.scopes ++ [(⟨nm, some st.current, []⟩ : Scope)])[j]? = _
        exact List.getElem?_append_left hj
      cases hc : st.scopes[j]? with
      | none => simp [hsame, hc]
      | some sc =>
        cases hp : sc.parent with
        | none => simp [hsame, hc, hp]
        | some p =>
          simp only [hsame, hc, hp]
          exact decide_eq_true (parentsDecreasing_spec st.scopes hdec j sc p hc hp)
    · by_cases hj2 : j = st.scopes.length
      · subst hj2
        have hnew : (enterScope st nm).scopes[st.scopes.length]? =
            some ⟨nm, some st.current, []⟩ := by
          show (st.scopes ++ [(⟨nm, some st.current, []⟩ : Scope)])[st.scopes.length]? = _
          exact List.getElem?_concat_length _ _
        simp only [hnew]
        exact decide_eq_true hcur
      · have hnone : (enterScope st nm).scopes[j]? = none := by
          rw [List.getElem?_eq_none_iff, hlenE]
          omega
        simp [hnone]
  · rw [List.all_eq_true]
    intro j hj
    rw [List.mem_range, hlenE] at hj
    show onChain (enterScope st nm).scopes (j + 1) j 0 = true
    rw [List.all_eq_true] at hall
    by_cases hjl : j < st.scopes.length
    · have hold := hall j (List.mem_range.mpr hjl)
      exact onChain_extend st.scopes _ (j + 1) j 0 hold
    · have hj2 : j = st.scopes.length := by omega
      subst hj2
      have hne : st.scopes.length ≠ 0 := by omega
      simp only [onChain, if_neg hne]
      have hnew : (enterScope st nm).scopes[st.scopes.length]? =
          some ⟨nm, some st.current, []⟩ := by
        show (st.scopes ++ [(⟨nm, some st.current, []⟩ : Scope)])[st.scopes.length]? = _
        exact List.getElem?_concat_length _ _
      rw [hnew]
      have hreach := hall st.current (List.mem_range.mpr hcur)
      have hm := onChain_mono st.scopes st.scopes.length (st.current + 1)
        st.current 0 (by omega) hreach
      exact onChain_extend st.scopes _ st.scopes.length st.current 0 hm

theorem goodArena_defineAt (st : SemState) (i : Nat) (n : String) (s : Sym)
    (h : goodArena st = true) : goodArena (defineAt st i n s).1 = true := by
  cases hc : st.scopes[i]? with
  | none => rw [defineAt_none st i n s hc]; exact h
  | some sc =>
    rw [defineAt_some st i n s sc hc]
    have hlt : i < st.scopes.length := (List.getElem?_eq_some_iff.mp hc).1
    have hfor : ∀ (j : Nat) (scj : Scope), st.scopes[j]? = some scj →
        ∃ sc2, (st.scopes.set i (scopeDefine sc n s).1)[j]? = some sc2 ∧
          sc2.parent = scj.parent := by
      intro j scj hj
      by_cases hij : j = i
      · subst hij
        rw [hj] at hc
        refine ⟨(scopeDefine sc n s).1, by simp [List.getElem?_set_self hlt], ?_⟩
        rw [(scopeDefine_frame sc n s).2, Option.some_inj.mp hc]
      · exact ⟨scj, by rw [List.getElem?_set_ne (fun h2 => hij h2.symm)]; exact hj, rfl⟩
    have hback : ∀ (j : Nat) (sc2 : Scope),
        (st.scopes.set i (scopeDefine sc n s).1)[j]? = some sc2 →
        ∃ scj, st.scopes[j]? = some scj ∧ scj.parent = sc2.parent := by
      intro j sc2 hj
      by_cases hij : j = i
      · subst hij
        rw [List.getElem?_set_self hlt] at hj
        refine ⟨sc, hc, ?_⟩
        rw [← Option.some_inj.mp hj, (scopeDefine_frame sc n s).2]
      · rw [List.getElem?_set_ne (fun h2 => hij h2.symm)] at hj
        exact ⟨sc2, hj, rfl⟩
    simp only [goodArena, Bool.and_eq_true, decide_eq_true_eq] at h ⊢
    obtain ⟨⟨hcur, hdec⟩, hall⟩ := h
    refine ⟨⟨by simpa using hcur, ?_⟩, ?_⟩
    · exact parentsDecreasing_of_mapped st.scopes _ hback hdec
    · exact reachAll_of_mapped st.scopes _ (by simp) hfor hall

theorem goodArena_defineParams : ∀ (ps : List Node) (st : SemState),
    goodArena st = true → goodArena (defineParams ps st) = true := by
  intro ps
  induction ps with
  | nil => intro st h; exact h
  | cons p rest ih =>
    intro st h
    cases p with
    | param pt pn =>
      simp only [defineParams]
      exact ih _ (goodArena_defineAt st st.current (identStr pn) ⟨pt, []⟩ h)
    | program cs => exact ih st h
    | funcDef rt nm ps2 body => exact ih st h
    | block ss => exact ih st h
    | varDecl vt vn v => exact ih st h
    | assign l r => exact ih st h
    | binop l o r => exact ih st h
    | num tk => exact ih st h
    | ident tk => exact ih st h
    | strLit tk => exact ih st h
    | call nm args => exact ih st h
    | ifStmt c ib eb => exact ih st h
    | forLoop ini c inc body => exact ih st h
    | ret v => exact ih st h

theorem visitSem_good_all : ∀ k : Nat,
    (∀ (node : Node) (st : SemState), sizeOf node ≤ k → goodArena st = true →
      goodArena (visitSem node st) = true) ∧
    (∀ (cs : List Node) (st : SemState), sizeOf cs ≤ k → goodArena st = true →
      goodArena (visitSemList cs st) = true) ∧
    (∀ (o : Option Node) (st : SemState), sizeOf o ≤ k → goodArena st = true →
      goodArena (visitSemOpt o st) = true) ∧
    (∀ (os : List (Option Node)) (st : SemState), sizeOf os ≤ k → goodArena st = true →
      goodArena (visitSemOptList os st) = true) := by
  intro k
  induction k with
  | zero =>
    refine ⟨fun node st h => absurd h (by have := node_sizeOf_pos node; omega),
      fun cs st h => absurd h (by cases cs <;> simp_arith),
      fun o st h => absurd h (by cases o <;> simp_arith),
      fun os st h => absurd h (by cases os <;> simp_arith)⟩
  | succ k ih =>
    obtain ⟨ihN, ihL, ihO, ihOL⟩ := ih
    refine ⟨?_, ?_, ?_, ?_⟩
    · intro node st h hg
      cases node with
      | program cs =>
        simpa [visitSem] using ihL cs st (by simp_arith at h; omega) hg
      | funcDef rt nm ps body =>
        rcases hd : defineAt st 0 (identStr nm) ⟨"function", ps⟩ with ⟨st1, ok⟩
        simp only [visitSem, hd]
        have hA : goodArena (if ok then st1
            else semErr st1 ("Function '" ++ identStr nm ++ "' already defined.")
              (nodeLine nm)) = true := by
          have h1 : goodArena st1 = true := by
            have := goodArena_defineAt st 0 (identStr nm) ⟨"function", ps⟩ hg
            rwa [hd] at this
          cases ok with
          | true => simpa using h1
          | false =>
            simp only [Bool.false_eq_true, if_false]
            rw [goodArena_semErr]
            exact h1
        apply goodArena_exitScope
        apply ihN body _ (by simp_arith at h; omega)
        apply goodArena_defineParams
        exact goodArena_enterScope _ (identStr nm) hA
      | param pt pn => simp only [visitSem]; exact hg
      | block ss =>
        simp only [visitSem]
        apply goodArena_exitScope
        exact ihL ss _ (by simp_arith at h; omega) (goodArena_enterScope st "block" hg)
      | varDecl vt vn val =>
        rcases hd : defineAt st st.current (identStr vn) ⟨"variable", []⟩ with ⟨st1, ok⟩
        simp only [visitSem, hd]
        have h1 : goodArena st1 = true := by
          have := goodArena_defineAt st st.current (identStr vn) ⟨"variable", []⟩ hg
          rwa [hd] at this
        have hA : goodArena (if ok then st1
            else semErr st1 ("Variable '" ++ identStr vn ++ "' already declared.")
              (nodeLine vn)) = true := by
          cases ok with
          | true => simpa using h1
          | false =>
            simp only [Bool.false_eq_true, if_false]
            rw [goodArena_semErr]
            exact h1
        exact ihO val _ (by simp_arith at h; omega) hA
      | assign l r =>
        simp only [visitSem]
        exact ihO r _ (by simp_arith at h; omega)
          (ihN l st (by simp_arith at h; omega) hg)
      | binop l op r =>
        simp only [visitSem]
        exact ihO r _ (by simp_arith at h; omega)
          (ihO l st (by simp_arith at h; omega) hg)
      | num tk => simp only [visitSem]; exact hg
      | ident tk =>
        simp only [visitSem]
        by_cases hl : (lookupFrom st st.current tk.value).isSome = true
        · rw [if_pos hl]; exact hg
        · rw [if_neg hl]; rw [goodArena_semErr]; exact hg
      | strLit tk => simp only [visitSem]; exact hg
      | call nm args =>
        simp only [visitSem]
        have hB : goodArena (match lookupFrom st st.current (identStr nm) with
            | none => semErr st ("Function '" ++ identStr nm ++ "' not defined.")
                (nodeLine nm)
            | some f =>
              if f.type != "function" then
                semErr st ("'" ++ identStr nm ++ "' is not a function.") (nodeLine nm)
              else st) = true := by
          cases lookupFrom st st.current (identStr nm) with
          | none => rw [goodArena_semErr]; exact hg
          | some f =>
            by_cases hf : f.type != "function"
            · simp only [hf, if_true]
              rw [goodArena_semErr]; exact hg
            · simp only [hf, if_false]
              exact hg
        exact ihOL args _ (by simp_arith at h; omega)
          (ihN nm _ (by simp_arith at h; omega) hB)
      | ifStmt c ib eb =>
        simp only [visitSem]
        exact ihO eb _ (by simp_arith at h; omega)
          (ihN ib _ (by simp_arith at h; omega)
            (ihO c st (by simp_arith at h; omega) hg))
      | forLoop ini c inc body =>
        simp only [visitSem]
        apply goodArena_exitScope
        exact ihN body _ (by simp_arith at h; omega)
          (ihO inc _ (by simp_arith at h; omega)
            (ihO c _ (by simp_arith at h; omega)
              (ihO ini _ (by simp_arith at h; omega)
                (goodArena_enterScope st "for-loop" hg))))
      | ret v =>
        simp only [visitSem]
        exact ihO v st (by simp_arith at h; omega) hg
    · intro cs st h hg
      cases cs with
      | nil => simp only [visitSemList]; exact hg
      | cons n rest =>
        simp only [visitSemList]
        exact ihL rest _ (by simp_arith at h; omega)
          (ihN n st (by simp_arith at h; omega) hg)
    · intro o st h hg
      cases o with
      | none => simp only [visitSemOpt]; exact hg
      | some n =>
        simp only [visitSemOpt]
        exact ihN n st (by simp_arith at h; omega) hg
    · intro os st h hg
      cases os with
      | nil => simp only [visitSemOptList]; exact hg
      | cons o rest =>
        simp only [visitSemOptList]
        exact ihOL rest _ (by simp_arith at h; omega)
          (ihO o st (by simp_arith at h; omega) hg)

theorem visitSem_good (node : Node) (st : SemState) (h : goodArena st = true) :
    goodArena (visitSem node st) = true :=
  (visitSem_good_all (sizeOf node)).1 node st (le_refl _) h

/-- C10: scope entries and exits are balanced in every run of `analyze` —
every visit (in particular the FunctionDefinition, Block and ForLoop visits,
which bracket their body in `enterScope`/`exitScope`) returns with the
current-scope cursor exactly where it started; hence `analyze` returns with
the cursor back at the global scope (index 0), the first element of the
returned flat scope list is the global scope, and every scope in that list
has a parent chain terminating at the global scope. -/
theorem analyze_scope_balance :
    (∀ (node : Node) (st : SemState), (visitSem node st).current = st.current) ∧
    (∀ (ast : Node),
      (analyze ast).current = 0 ∧
      (∃ sc, (analyze ast).scopes[0]? = some sc ∧ sc.name = "global" ∧
        sc.parent = none) ∧
      (∀ (i : Nat), i < (analyze ast).scopes.length →
        onChain (analyze ast).scopes (i + 1) i 0 = true)) := by
  constructor
  · intro node st
    exact (visitSem_pres node st).1
  · intro ast
    have hp := visitSem_pres ast initSemState
    have hg : goodArena (analyze ast) = true :=
      visitSem_good ast initSemState (by decide)
    refine ⟨?_, ?_, ?_⟩
    · show (visitSem ast initSemState).current = 0
      rw [hp.1]
      rfl
    · obtain ⟨sc, h1, h2, h3⟩ :=
        hp.2.2 0 ⟨"global", none, [("printf", ⟨"function", []⟩)]⟩ rfl
      exact ⟨sc, h1, h2, h3⟩
    · intro i hi
      simp only [goodArena, Bool.and_eq_true] at hg
      obtain ⟨⟨_, _⟩, hall⟩ := hg
      rw [List.all_eq_true] at hall
      exact hall i (List.mem_range.mpr hi)

theorem analyze_scope_balance_witness :
    (visitSem (.block []) initSemState).current = initSemState.current ∧
    (analyze (.program [])).current = 0 ∧
    0 < (analyze (.program [])).scopes.length ∧
    onChain (analyze (.program [])).scopes 1 0 0 = true :=
  ⟨analyze_scope_balance.1 (.block []) initSemState,
   (analyze_scope_balance.2 (.program [])).1,
   by decide,
   (analyze_scope_balance.2 (.program [])).2.2 0 (by decide)⟩

end IC
